import Mathlib

/-!
# Verification of the AgentHAB generation/validation core

Shallow embedding of the parts of the repository covered by the spec's
claims:

* `src/tools/rule_parser.py` — the regex-based openHAB DSL rule parser
  (`RuleParser.parse_rule`, `RuleParser.parse_rules_text` and the item
  extraction helpers);
* `src/tools/prompt_builder.py` — `PromptBuilder.add_feedback` and friends;
* `src/agents/validator_agent.py` / `src/agents/context_validator.py` —
  the verdict dataclasses and the `_parse_output` JSON-fallback parsers;
* `src/main.py` — `run_generation_loop`.

Python `str` values are modelled as `List Char` (`PyStr`).  The source
operates on text produced by the surrounding pipeline, which is ASCII; the
character classes below (`\w`, `\s`, lower-casing) are therefore modelled
at ASCII granularity.  CPython's `set` iteration order is unspecified
(hash-randomised), so `list(set(xs))` is modelled by a deterministic
deduplication; every theorem about deduplicated fields is stated
order-insensitively (membership and `Nodup`).
-/

namespace AgentHAB

/-- Python `str` modelled as a list of characters. -/
abbrev PyStr := List Char

/-- Python whitespace for `str.strip()` / regex `\s` (ASCII fragment):
space, tab, newline, carriage return, vertical tab, form feed. -/
def isSpace (c : Char) : Bool :=
  c == ' ' || c == '\t' || c == '\n' || c == '\r' ||
  c == Char.ofNat 11 || c == Char.ofNat 12

/-- Regex `\w` (ASCII fragment): letters, digits and underscore. -/
def isWordChar (c : Char) : Bool :=
  ('a' ≤ c && c ≤ 'z') || ('A' ≤ c && c ≤ 'Z') || ('0' ≤ c && c ≤ '9') || c == '_'

/-- ASCII lower-casing, as used by `str.lower()` and `re.IGNORECASE` on the
ASCII inputs this system manipulates. -/
def asciiLower (c : Char) : Char :=
  if 'A' ≤ c && c ≤ 'Z' then Char.ofNat (c.toNat + 32) else c

/-- Embedding of `str.lower()`. -/
def lowerL (l : PyStr) : PyStr := l.map asciiLower

/-- Embedding of `str.strip()` — remove leading and trailing whitespace. -/
def pyStrip (l : PyStr) : PyStr :=
  ((l.dropWhile isSpace).reverse.dropWhile isSpace).reverse

/-- The backtick character (code point 96). -/
def backtick : Char := Char.ofNat 96

/-- Embedding of `str.strip("\x60")` — remove leading and trailing backticks. -/
def pyStripBackticks (l : PyStr) : PyStr :=
  ((l.dropWhile (· == backtick)).reverse.dropWhile (· == backtick)).reverse

/-- Case-insensitive (ASCII) prefix test: does `l` start with `pat`? -/
def ciPrefixB : PyStr → PyStr → Bool
  | [], _ => true
  | _ :: _, [] => false
  | p :: ps, c :: cs => asciiLower c == asciiLower p && ciPrefixB ps cs

/-- Substring containment (`pat in s` for Python strings). -/
def containsSub (pat : PyStr) : PyStr → Bool
  | [] => pat.isEmpty
  | c :: cs => pat.isPrefixOf (c :: cs) || containsSub pat cs

/-- Embedding of `list(set(xs))`: deduplication with an (arbitrary but fixed) order.
CPython's set order is unspecified, so only membership and duplicate
freedom of the result are meaningful. -/
def pySet (xs : List PyStr) : List PyStr := xs.dedup

/-! ## Rule parser (`src/tools/rule_parser.py`)

The extraction regexes are compiled with `re.IGNORECASE` (and the
`when`/`then` spans with `re.DOTALL`); each is embedded as a scanner with
Python `re` leftmost-match semantics. -/

/-- One step of regex `\w+`: the maximal word-character run at the head of
the input (`none` if the head is not a word character).  Returns the run
and the rest of the input. -/
def takeWord1 (l : PyStr) : Option (PyStr × PyStr) :=
  let w := l.takeWhile isWordChar
  if w.isEmpty then none else some (w, l.dropWhile isWordChar)

/-- Skip `\s+` (at least one whitespace character). -/
def dropSpaces1 (l : PyStr) : Option PyStr :=
  match l with
  | [] => none
  | c :: cs => if isSpace c then some (cs.dropWhile isSpace) else none

/-- Match a case-insensitive literal and return the remaining input. -/
def ciLit (pat : PyStr) (l : PyStr) : Option PyStr :=
  if ciPrefixB pat l then some (l.drop pat.length) else none

/-- Attempt `RULE_PATTERN = rule\s+"([^"]+)"` (IGNORECASE) anchored at the
head of `l`; returns the quoted name on success. -/
def tryRuleAt (l : PyStr) : Option PyStr := do
  let l ← ciLit ('r' :: 'u' :: 'l' :: 'e' :: []) l
  let l ← dropSpaces1 l
  match l with
  | '"' :: l =>
    let nm := l.takeWhile (· ≠ '"')
    if nm.isEmpty then none
    else match l.dropWhile (· ≠ '"') with
      | '"' :: _ => some nm
      | _ => none
  | _ => none

/-- Embedding of `RULE_PATTERN.search`: leftmost match of `rule\s+"([^"]+)"`. -/
def ruleSearch : PyStr → Option PyStr
  | [] => none
  | c :: cs =>
    match tryRuleAt (c :: cs) with
    | some nm => some nm
    | none => ruleSearch cs

/-- Word boundary `\b` immediately before a word character: the previous
character (if any) must not be a word character. -/
def boundaryB : Option Char → Bool
  | none => true
  | some c => !isWordChar c

/-- Embedding of `\bkw\b` anchored at the head of `l` (`pc` is the preceding character).
All keywords used are made of word characters, so the boundaries reduce to
non-word neighbours. -/
def wordKeywordAt (kw : PyStr) (pc : Option Char) (l : PyStr) : Bool :=
  boundaryB pc && ciPrefixB kw l &&
    (match l.drop kw.length with
     | [] => true
     | c :: _ => !isWordChar c)

/-- Lazy scan for the closing keyword of `\bopen\b(.*?)\bclose\b`: starting
just after the opening keyword, find the nearest position where
`\bclose\b` matches and return the characters in between. -/
def lazyUntil (close : PyStr) : Option Char → PyStr → PyStr → Option PyStr
  | _, _, [] => none
  | pc, acc, c :: cs =>
    if wordKeywordAt close pc (c :: cs) then some acc.reverse
    else lazyUntil close (some c) (c :: acc) cs

/-- Embedding of `re.search` for `\bopen\b(.*?)\bclose\b` (DOTALL, IGNORECASE): leftmost
occurrence of the opening keyword from which the closing keyword is
reachable; the captured group is the lazy span between them. -/
def spanSearch (opn close : PyStr) : Option Char → PyStr → Option PyStr
  | _, [] => none
  | pc, c :: cs =>
    match
      (if wordKeywordAt opn pc (c :: cs) then
        lazyUntil close (some (opn.getLastD 'x')) [] ((c :: cs).drop opn.length)
      else none) with
    | some g => some g
    | none => spanSearch opn close (some c) cs

/-- Embedding of `WHEN_PATTERN.search`: `\bwhen\b(.*?)\bthen\b`. -/
def whenSearch (l : PyStr) : Option PyStr :=
  spanSearch ('w' :: 'h' :: 'e' :: 'n' :: []) ('t' :: 'h' :: 'e' :: 'n' :: []) none l

/-- Embedding of `THEN_PATTERN.search`: `\bthen\b(.*?)\bend\b`. -/
def thenSearch (l : PyStr) : Option PyStr :=
  spanSearch ('t' :: 'h' :: 'e' :: 'n' :: []) ('e' :: 'n' :: 'd' :: []) none l

/-- Attempt `ITEM_CHANGED_PATTERN = Item\s+(\w+)\s+(?:changed|received)`
(IGNORECASE) anchored at the head; returns the captured name and the rest
of the input after the match. -/
def tryItemChanged (l : PyStr) : Option (PyStr × PyStr) := do
  let l1 ← ciLit ('i' :: 't' :: 'e' :: 'm' :: []) l
  let l2 ← dropSpaces1 l1
  let (w, l3) ← takeWord1 l2
  let l4 ← dropSpaces1 l3
  match ciLit ('c' :: 'h' :: 'a' :: 'n' :: 'g' :: 'e' :: 'd' :: []) l4 with
  | some r => some (w, r)
  | none =>
    match ciLit ('r' :: 'e' :: 'c' :: 'e' :: 'i' :: 'v' :: 'e' :: 'd' :: []) l4 with
    | some r => some (w, r)
    | none => none

/-- Attempt `ITEM_STATE_PATTERN = (\w+)\.state` (IGNORECASE) anchored at
the head. -/
def tryItemState (l : PyStr) : Option (PyStr × PyStr) := do
  let (w, l1) ← takeWord1 l
  match l1 with
  | '.' :: l2 =>
    match ciLit ('s' :: 't' :: 'a' :: 't' :: 'e' :: []) l2 with
    | some r => some (w, r)
    | none => none
  | _ => none

/-- Attempt `fname\s*\(\s*(\w+)` (IGNORECASE) anchored at the head — the
shape of `SEND_COMMAND_PATTERN` and `POST_UPDATE_PATTERN`. -/
def tryCallArg (fname : PyStr) (l : PyStr) : Option (PyStr × PyStr) := do
  let l1 ← ciLit fname l
  match l1.dropWhile isSpace with
  | '(' :: l3 => takeWord1 (l3.dropWhile isSpace)
  | _ => none

theorem length_dropWhile_le (p : Char → Bool) (l : PyStr) :
    (l.dropWhile p).length ≤ l.length := by
  induction l with
  | nil => simp
  | cons c cs ih =>
    by_cases h : p c = true
    · simp [List.dropWhile, h]; omega
    · simp [List.dropWhile, h]

theorem ciPrefixB_length {pat l : PyStr} (h : ciPrefixB pat l = true) :
    pat.length ≤ l.length := by
  induction pat generalizing l with
  | nil => simp
  | cons p ps ih =>
    cases l with
    | nil => simp [ciPrefixB] at h
    | cons c cs =>
      simp only [ciPrefixB, Bool.and_eq_true] at h
      simpa [Nat.succ_le_succ_iff] using ih h.2

theorem ciLit_length {pat l r : PyStr} (h : ciLit pat l = some r) :
    r.length = l.length - pat.length ∧ pat.length ≤ l.length := by
  unfold ciLit at h
  by_cases hp : ciPrefixB pat l = true
  · simp [hp] at h
    subst h
    exact ⟨List.length_drop _ _, ciPrefixB_length hp⟩
  · simp [hp] at h

theorem dropSpaces1_length {l r : PyStr} (h : dropSpaces1 l = some r) :
    r.length < l.length := by
  cases l with
  | nil => simp [dropSpaces1] at h
  | cons c cs =>
    by_cases hs : isSpace c = true
    · simp [dropSpaces1, hs] at h
      subst h
      exact Nat.lt_succ_of_le (length_dropWhile_le _ _)
    · simp [dropSpaces1, hs] at h

theorem takeWord1_rest {l w r : PyStr} (h : takeWord1 l = some (w, r)) :
    r.length < l.length ∧ w ≠ [] ∧ ∀ c ∈ w, isWordChar c = true := by
  unfold takeWord1 at h
  by_cases he : (l.takeWhile isWordChar).isEmpty = true
  · simp [he] at h
  · simp [he] at h
    obtain ⟨hw, hr⟩ := h
    cases l with
    | nil => simp [List.takeWhile] at he
    | cons c cs =>
      by_cases hc : isWordChar c = true
      · refine ⟨?_, ?_, ?_⟩
        · rw [← hr]
          simp [List.dropWhile, hc]
          exact Nat.lt_succ_of_le (length_dropWhile_le _ _)
        · rw [← hw]; simp [List.takeWhile, hc]
        · intro x hx
          rw [← hw] at hx
          exact List.mem_takeWhile_imp hx
      · simp [List.takeWhile, hc] at he

theorem tryItemChanged_rest {l w r : PyStr} (h : tryItemChanged l = some (w, r)) :
    r.length < l.length := by
  unfold tryItemChanged at h
  cases h1 : ciLit ('i' :: 't' :: 'e' :: 'm' :: []) l with
  | none => simp [h1] at h
  | some l1 =>
    cases h2 : dropSpaces1 l1 with
    | none => simp [h1, h2] at h
    | some l2 =>
      cases h3 : takeWord1 l2 with
      | none => simp [h1, h2, h3] at h
      | some wl3 =>
        obtain ⟨w', l3⟩ := wl3
        cases h4 : dropSpaces1 l3 with
        | none => simp [h1, h2, h3, h4] at h
        | some l4 =>
          have hl1 := ciLit_length h1
          have hl2 := dropSpaces1_length h2
          have hl3 := (takeWord1_rest h3).1
          have hl4 := dropSpaces1_length h4
          simp only [h1, h2, h3, h4, Option.bind_eq_bind, Option.some_bind] at h
          cases h5 : ciLit ('c' :: 'h' :: 'a' :: 'n' :: 'g' :: 'e' :: 'd' :: []) l4 with
          | some r' =>
            simp [h5] at h
            obtain ⟨hw, hr⟩ := h
            subst hr
            have := (ciLit_length h5).1
            omega
          | none =>
            cases h6 : ciLit ('r' :: 'e' :: 'c' :: 'e' :: 'i' :: 'v' :: 'e' :: 'd' :: []) l4 with
            | some r' =>
              simp [h5, h6] at h
              obtain ⟨hw, hr⟩ := h
              subst hr
              have := (ciLit_length h6).1
              omega
            | none => simp [h5, h6] at h

theorem tryItemState_rest {l w r : PyStr} (h : tryItemState l = some (w, r)) :
    r.length < l.length := by
  unfold tryItemState at h
  cases h1 : takeWord1 l with
  | none => simp [h1] at h
  | some wl1 =>
    obtain ⟨w', l1⟩ := wl1
    have hl1 := (takeWord1_rest h1).1
    simp only [h1, Option.bind_eq_bind, Option.some_bind] at h
    cases l1 with
    | nil => simp at h
    | cons c l2 =>
      by_cases hc : c = '.'
      · subst hc
        simp only at h
        cases h5 : ciLit ('s' :: 't' :: 'a' :: 't' :: 'e' :: []) l2 with
        | some r' =>
          simp [h5] at h
          obtain ⟨hw, hr⟩ := h
          subst hr
          have := (ciLit_length h5).1
          simp at hl1
          omega
        | none => simp [h5] at h
      · simp [hc] at h

theorem tryCallArg_rest {fname l w r : PyStr} (h : tryCallArg fname l = some (w, r)) :
    r.length < l.length := by
  unfold tryCallArg at h
  cases h1 : ciLit fname l with
  | none => simp [h1] at h
  | some l1 =>
    have hl1 : l1.length ≤ l.length := by
      have := ciLit_length h1; omega
    simp only [h1, Option.bind_eq_bind, Option.some_bind] at h
    have hdw := length_dropWhile_le isSpace l1
    cases h2 : l1.dropWhile isSpace with
    | nil => rw [h2] at h; simp at h
    | cons c l3 =>
      rw [h2] at h
      by_cases hc : c = '('
      · subst hc
        simp only at h
        have hl3 := (takeWord1_rest h).1
        have hl4 := length_dropWhile_le isSpace l3
        rw [h2] at hdw
        simp only [List.length_cons] at hdw
        omega
      · simp [hc] at h

/-! The `finditer` scanners advance past each match, which is not a
structural recursion; they are written with an explicit fuel argument
(structural, hence kernel-reducible) set to the input length.  Each match
consumes at least one character, so that fuel is always sufficient — the
`..._fuel` lemmas below prove the result is fuel-independent from the
input length up. -/

/-- Embedding of `ITEM_CHANGED_PATTERN.finditer`: leftmost, non-overlapping matches;
collects `match.group(1)` of each. -/
def iterItemChangedAux : Nat → PyStr → List PyStr
  | 0, _ => []
  | _ + 1, [] => []
  | fuel + 1, c :: cs =>
    match tryItemChanged (c :: cs) with
    | some (w, r) => w :: iterItemChangedAux fuel r
    | none => iterItemChangedAux fuel cs

def iterItemChanged (l : PyStr) : List PyStr := iterItemChangedAux l.length l

/-- Embedding of `ITEM_STATE_PATTERN.finditer`. -/
def iterItemStateAux : Nat → PyStr → List PyStr
  | 0, _ => []
  | _ + 1, [] => []
  | fuel + 1, c :: cs =>
    match tryItemState (c :: cs) with
    | some (w, r) => w :: iterItemStateAux fuel r
    | none => iterItemStateAux fuel cs

def iterItemState (l : PyStr) : List PyStr := iterItemStateAux l.length l

/-- Embedding of `finditer` for `SEND_COMMAND_PATTERN` / `POST_UPDATE_PATTERN`. -/
def iterCallArgAux (fname : PyStr) : Nat → PyStr → List PyStr
  | 0, _ => []
  | _ + 1, [] => []
  | fuel + 1, c :: cs =>
    match tryCallArg fname (c :: cs) with
    | some (w, r) => w :: iterCallArgAux fname fuel r
    | none => iterCallArgAux fname fuel cs

def iterCallArg (fname : PyStr) (l : PyStr) : List PyStr :=
  iterCallArgAux fname l.length l

theorem iterItemChangedAux_fuel :
    ∀ f1 f2 (l : PyStr), l.length ≤ f1 → l.length ≤ f2 →
      iterItemChangedAux f1 l = iterItemChangedAux f2 l := by
  intro f1
  induction f1 with
  | zero =>
    intro f2 l h1 _
    have : l = [] := List.eq_nil_of_length_eq_zero (Nat.le_zero.1 h1)
    subst this
    cases f2 <;> rfl
  | succ f1 ih =>
    intro f2 l h1 h2
    cases l with
    | nil => cases f2 <;> rfl
    | cons c cs =>
      cases f2 with
      | zero => simp at h2
      | succ f2 =>
        simp only [iterItemChangedAux]
        cases htry : tryItemChanged (c :: cs) with
        | some wr =>
          obtain ⟨w, r⟩ := wr
          have hr := tryItemChanged_rest htry
          simp only [List.length_cons] at h1 h2 hr
          show w :: iterItemChangedAux f1 r = w :: iterItemChangedAux f2 r
          rw [ih f2 r (by omega) (by omega)]
        | none =>
          simp only [List.length_cons] at h1 h2
          show iterItemChangedAux f1 cs = iterItemChangedAux f2 cs
          rw [ih f2 cs (by omega) (by omega)]

theorem iterItemStateAux_fuel :
    ∀ f1 f2 (l : PyStr), l.length ≤ f1 → l.length ≤ f2 →
      iterItemStateAux f1 l = iterItemStateAux f2 l := by
  intro f1
  induction f1 with
  | zero =>
    intro f2 l h1 _
    have : l = [] := List.eq_nil_of_length_eq_zero (Nat.le_zero.1 h1)
    subst this
    cases f2 <;> rfl
  | succ f1 ih =>
    intro f2 l h1 h2
    cases l with
    | nil => cases f2 <;> rfl
    | cons c cs =>
      cases f2 with
      | zero => simp at h2
      | succ f2 =>
        simp only [iterItemStateAux]
        cases htry : tryItemState (c :: cs) with
        | some wr =>
          obtain ⟨w, r⟩ := wr
          have hr := tryItemState_rest htry
          simp only [List.length_cons] at h1 h2 hr
          show w :: iterItemStateAux f1 r = w :: iterItemStateAux f2 r
          rw [ih f2 r (by omega) (by omega)]
        | none =>
          simp only [List.length_cons] at h1 h2
          show iterItemStateAux f1 cs = iterItemStateAux f2 cs
          rw [ih f2 cs (by omega) (by omega)]

theorem iterCallArgAux_fuel (fname : PyStr) :
    ∀ f1 f2 (l : PyStr), l.length ≤ f1 → l.length ≤ f2 →
      iterCallArgAux fname f1 l = iterCallArgAux fname f2 l := by
  intro f1
  induction f1 with
  | zero =>
    intro f2 l h1 _
    have : l = [] := List.eq_nil_of_length_eq_zero (Nat.le_zero.1 h1)
    subst this
    cases f2 <;> rfl
  | succ f1 ih =>
    intro f2 l h1 h2
    cases l with
    | nil => cases f2 <;> rfl
    | cons c cs =>
      cases f2 with
      | zero => simp at h2
      | succ f2 =>
        simp only [iterCallArgAux]
        cases htry : tryCallArg fname (c :: cs) with
        | some wr =>
          obtain ⟨w, r⟩ := wr
          have hr := tryCallArg_rest htry
          simp only [List.length_cons] at h1 h2 hr
          show w :: iterCallArgAux fname f1 r = w :: iterCallArgAux fname f2 r
          rw [ih f2 r (by omega) (by omega)]
        | none =>
          simp only [List.length_cons] at h1 h2
          show iterCallArgAux fname f1 cs = iterCallArgAux fname f2 cs
          rw [ih f2 cs (by omega) (by omega)]

/-- Embedding of `RuleParser._extract_items_from_when`: `ITEM_CHANGED` matches then
`.state` references, deduplicated by `list(set(...))`. -/
def extract_items_from_when (whenClause : PyStr) : List PyStr :=
  pySet (iterItemChanged whenClause ++ iterItemState whenClause)

/-- Embedding of `RuleParser._extract_items_from_then`: `sendCommand(...)`,
`postUpdate(...)` and `.state` references, deduplicated. -/
def extract_items_from_then (thenClause : PyStr) : List PyStr :=
  pySet (iterCallArg ('s' :: 'e' :: 'n' :: 'd' :: 'c' :: 'o' :: 'm' :: 'm' :: 'a' :: 'n' :: 'd' :: []) thenClause ++
         iterCallArg ('p' :: 'o' :: 's' :: 't' :: 'u' :: 'p' :: 'd' :: 'a' :: 't' :: 'e' :: []) thenClause ++
         iterItemState thenClause)

/-- Embedding of `ParsedRule` (dataclass in `src/tools/rule_parser.py`). -/
structure ParsedRule where
  name : PyStr
  raw_text : PyStr
  trigger_items : List PyStr
  action_items : List PyStr
  all_items : List PyStr
  source_file : Option PyStr := none
deriving DecidableEq, Repr

/-- Embedding of `RuleParser.parse_rule`: strip, guard on emptiness and on the literal
substring `rule` (case-insensitive), extract the header name, the
`when`/`then` spans (empty when absent), and the item reference sets. -/
def parse_rule (ruleText : PyStr) (sourceFile : Option PyStr := none) :
    Option ParsedRule :=
  let rt := pyStrip ruleText
  if rt.isEmpty || !containsSub ('r' :: 'u' :: 'l' :: 'e' :: []) (lowerL rt) then
    none
  else
    match ruleSearch rt with
    | none => none
    | some nm =>
      let whenClause := (whenSearch rt).getD []
      let thenClause := (thenSearch rt).getD []
      let trigger := extract_items_from_when whenClause
      let action := extract_items_from_then thenClause
      some { name := nm
             raw_text := rt
             trigger_items := trigger
             action_items := action
             all_items := pySet (trigger ++ action)
             source_file := sourceFile }

/-- Embedding of `RuleParser.extract_item_references`. -/
def extract_item_references (ruleText : PyStr) : List PyStr :=
  match parse_rule ruleText with
  | some p => p.all_items
  | none => []

/-- Head test for the zero-width split pattern `(?=\brule\s+")`
(IGNORECASE): the literal `rule`, at least one whitespace character, and a
double quote. -/
def quoteAfterSpaces : PyStr → Bool
  | [] => false
  | c :: cs => if isSpace c then quoteAfterSpaces cs else c == '"'

def ruleQuotePrefixB (l : PyStr) : Bool :=
  ciPrefixB ('r' :: 'u' :: 'l' :: 'e' :: []) l &&
  (match l.drop 4 with
   | [] => false
   | c :: cs => isSpace c && quoteAfterSpaces cs)

/-- Does `re.split(r'(?=\brule\s+")')` cut at this position?  `pc` is the
preceding character (`none` at the start of the input). -/
def splitHereB (pc : Option Char) (l : PyStr) : Bool :=
  boundaryB pc && ruleQuotePrefixB l

/-- Scanner for `re.split` with the zero-width lookahead pattern: `acc`
holds the current chunk reversed. -/
def splitAux (acc : PyStr) (pc : Option Char) : PyStr → List PyStr
  | [] => [acc.reverse]
  | c :: cs =>
    if splitHereB pc (c :: cs) then acc.reverse :: splitAux [c] (some c) cs
    else splitAux (c :: acc) (some c) cs

/-- Embedding of `re.split(r'(?=\brule\s+")', content, flags=re.IGNORECASE)`. -/
def splitRuleBlocks (content : PyStr) : List PyStr := splitAux [] none content

/-- Embedding of `str.split("\n")`. -/
def splitNl : PyStr → List PyStr
  | [] => [[]]
  | c :: cs =>
    if c = '\n' then [] :: splitNl cs
    else
      match splitNl cs with
      | [] => [[c]]
      | line :: rest => (c :: line) :: rest

/-- Embedding of `"\n".join`. -/
def joinNl : List PyStr → PyStr
  | [] => []
  | [l] => l
  | l :: ls => l ++ '\n' :: joinNl ls

/-- Embedding of `re.sub(r'^\x60\x60\x60.*$', '', block, flags=re.MULTILINE)`: blank
every line that starts with three backticks. -/
def stripFences (l : PyStr) : PyStr :=
  joinNl ((splitNl l).map fun line =>
    if (backtick :: backtick :: backtick :: []).isPrefixOf line then [] else line)

/-- Embedding of `RuleParser.parse_rules_text`: split on rule-header lookaheads, skip
blank chunks, remove markdown fences, and parse each block. -/
def parse_rules_text (content : PyStr) (sourceFile : Option PyStr := none) :
    List ParsedRule :=
  (splitRuleBlocks content).filterMap fun block =>
    if (pyStrip block).isEmpty then none
    else parse_rule (pyStrip (stripFences block)) sourceFile

/-! ## JSON decoding (`json.loads`)

Model of the Python `json` decoder as used by the validators: values are
objects, arrays, strings, numbers, booleans and `null` (plus the CPython
extras `NaN`/`Infinity`).  Numeric lexemes are kept verbatim — no claim
inspects a numeric value, so no floating-point semantics is modelled.
`\uXXXX` escapes decode a single code unit (surrogate-pair recombination
is not modelled; no claim involves it). -/

inductive Json where
  | obj (members : List (PyStr × Json))
  | arr (elems : List Json)
  | str (s : PyStr)
  | num (lexeme : PyStr)
  | bool (b : Bool)
  | null
deriving Repr

/-- JSON inter-token whitespace. -/
def isJsonWs (c : Char) : Bool :=
  c == ' ' || c == '\t' || c == '\n' || c == '\r'

def skipWs (l : PyStr) : PyStr := l.dropWhile isJsonWs

/-- Hexadecimal digit value (for string `\uXXXX` escapes), written over
code points: digits are 48–57, lowercase a–f are 97–102, uppercase A–F
are 65–70. -/
def hexVal (c : Char) : Option Nat :=
  let n := c.toNat
  if 48 ≤ n && n ≤ 57 then some (n - 48)
  else if 97 ≤ n && n ≤ 102 then some (n - 87)
  else if 65 ≤ n && n ≤ 70 then some (n - 55)
  else none

/-- Parse a JSON string body (the opening quote already consumed):
returns the decoded characters and the input after the closing quote.
Strict mode: raw control characters are rejected.  Structural fuel (one
unit per input character suffices, each step consumes at least one). -/
def parseJStringAux : Nat → PyStr → Option (PyStr × PyStr)
  | 0, _ => none
  | _ + 1, [] => none
  | fuel + 1, c :: cs =>
    if c = '"' then some ([], cs)
    else if c = '\\' then
      match cs with
      | '"' :: r => (parseJStringAux fuel r).map fun (s, t) => ('"' :: s, t)
      | '\\' :: r => (parseJStringAux fuel r).map fun (s, t) => ('\\' :: s, t)
      | '/' :: r => (parseJStringAux fuel r).map fun (s, t) => ('/' :: s, t)
      | 'b' :: r => (parseJStringAux fuel r).map fun (s, t) => (Char.ofNat 8 :: s, t)
      | 'f' :: r => (parseJStringAux fuel r).map fun (s, t) => (Char.ofNat 12 :: s, t)
      | 'n' :: r => (parseJStringAux fuel r).map fun (s, t) => ('\n' :: s, t)
      | 'r' :: r => (parseJStringAux fuel r).map fun (s, t) => ('\r' :: s, t)
      | 't' :: r => (parseJStringAux fuel r).map fun (s, t) => ('\t' :: s, t)
      | 'u' :: h1 :: h2 :: h3 :: h4 :: r =>
        match hexVal h1, hexVal h2, hexVal h3, hexVal h4 with
        | some a, some b, some c3, some d =>
          (parseJStringAux fuel r).map fun (s, t) =>
            (Char.ofNat (((a * 16 + b) * 16 + c3) * 16 + d) :: s, t)
        | _, _, _, _ => none
      | _ => none
    else if c.toNat < 32 then none
    else (parseJStringAux fuel cs).map fun (s, t) => (c :: s, t)

def parseJString (l : PyStr) : Option (PyStr × PyStr) :=
  parseJStringAux l.length l

def isDigit (c : Char) : Bool := '0' ≤ c && c ≤ '9'

/-- Lex a JSON number at the head of the input (grammar
`-?(0|[1-9][0-9]*)(\.[0-9]+)?([eE][+-]?[0-9]+)?`); returns the lexeme. -/
def lexNumber (l : PyStr) : Option (PyStr × PyStr) :=
  let (sign, l1) := match l with
                    | '-' :: r => (('-' :: [] : PyStr), r)
                    | _ => (([] : PyStr), l)
  let intPart := l1.takeWhile isDigit
  let l2 := l1.dropWhile isDigit
  if intPart.isEmpty then none
  else if intPart.length > 1 && intPart.headD '0' = '0' then none
  else
    let (frac, l3) :=
      match l2 with
      | '.' :: r =>
        let ds := r.takeWhile isDigit
        if ds.isEmpty then (([] : PyStr), l2)
        else ('.' :: ds, r.dropWhile isDigit)
      | _ => (([] : PyStr), l2)
    let (expPart, l4) :=
      match l3 with
      | e :: r =>
        if e = 'e' || e = 'E' then
          let (es, r1) := match r with
                          | '+' :: r2 => (('+' :: [] : PyStr), r2)
                          | '-' :: r2 => (('-' :: [] : PyStr), r2)
                          | _ => (([] : PyStr), r)
          let ds := r1.takeWhile isDigit
          if ds.isEmpty then (([] : PyStr), l3)
          else (e :: (es ++ ds), r1.dropWhile isDigit)
        else (([] : PyStr), l3)
      | _ => (([] : PyStr), l3)
    some (sign ++ intPart ++ frac ++ expPart, l4)

mutual

/-- Parse one JSON value; the head of `l` is the first token character. -/
def parseJValue : Nat → PyStr → Option (Json × PyStr)
  | 0, _ => none
  | fuel + 1, l =>
    match l with
    | '{' :: r => parseJMembers fuel (skipWs r) true
    | '[' :: r => parseJElems fuel (skipWs r) true
    | '"' :: r => (parseJString r).map fun (s, t) => (Json.str s, t)
    | 't' :: 'r' :: 'u' :: 'e' :: r => some (Json.bool true, r)
    | 'f' :: 'a' :: 'l' :: 's' :: 'e' :: r => some (Json.bool false, r)
    | 'n' :: 'u' :: 'l' :: 'l' :: r => some (Json.null, r)
    | 'N' :: 'a' :: 'N' :: r => some (Json.num ('N' :: 'a' :: 'N' :: []), r)
    | 'I' :: 'n' :: 'f' :: 'i' :: 'n' :: 'i' :: 't' :: 'y' :: r =>
      some (Json.num ('I' :: 'n' :: 'f' :: []), r)
    | '-' :: 'I' :: 'n' :: 'f' :: 'i' :: 'n' :: 'i' :: 't' :: 'y' :: r =>
      some (Json.num ('-' :: 'I' :: 'n' :: 'f' :: []), r)
    | _ => (lexNumber l).map fun (lex, t) => (Json.num lex, t)

/-- Parse the members of an object after `{` (whitespace skipped);
`first` is true before any member has been read. -/
def parseJMembers : Nat → PyStr → Bool → Option (Json × PyStr)
  | 0, _, _ => none
  | fuel + 1, l, first =>
    match l with
    | '}' :: r => if first then some (Json.obj [], r) else none
    | '"' :: r =>
      match parseJString r with
      | none => none
      | some (k, t) =>
        match skipWs t with
        | ':' :: t2 =>
          match parseJValue fuel (skipWs t2) with
          | none => none
          | some (v, t3) =>
            match skipWs t3 with
            | ',' :: t4 =>
              match parseJMembers fuel (skipWs t4) false with
              | some (Json.obj ms, t5) => some (Json.obj ((k, v) :: ms), t5)
              | _ => none
            | '}' :: t4 => some (Json.obj [(k, v)], t4)
            | _ => none
        | _ => none
    | _ => none

/-- Parse the elements of an array after `[` (whitespace skipped). -/
def parseJElems : Nat → PyStr → Bool → Option (Json × PyStr)
  | 0, _, _ => none
  | fuel + 1, l, first =>
    match l with
    | ']' :: r => if first then some (Json.arr [], r) else none
    | _ =>
      match parseJValue fuel l with
      | none => none
      | some (v, t) =>
        match skipWs t with
        | ',' :: t2 =>
          match parseJElems fuel (skipWs t2) false with
          | some (Json.arr es, t3) => some (Json.arr (v :: es), t3)
          | _ => none
        | ']' :: t2 => some (Json.arr [v], t2)
        | _ => none

end

/-- Embedding of `json.loads`: decode one document and require only whitespace after
it.  The fuel bounds the recursion; every recursive call is preceded by
the consumption of at least one input character, so `2·|l| + 8` is always
sufficient. -/
def jsonLoads (l : PyStr) : Option Json :=
  match parseJValue (2 * l.length + 8) (skipWs l) with
  | some (v, rest) => if (skipWs rest).isEmpty then some v else none
  | none => none

/-- Embedding of `dict.get(key, ...)` on a decoded object: later duplicate keys win, as
in the Python `dict` built by `json.loads`. -/
def jsonGet (k : PyStr) : Json → Option Json
  | Json.obj ms => ((ms.filter fun m => m.1 == k).getLast?).map (·.2)
  | _ => none

/-- Python `str.replace` (all non-overlapping occurrences, left to
right).  Structural fuel: every step consumes at least one character, so
one unit per input character suffices. -/
def pyReplaceAux (pat rep : PyStr) : Nat → PyStr → PyStr
  | 0, l => l
  | _ + 1, [] => []
  | fuel + 1, c :: cs =>
    if pat.isPrefixOf (c :: cs) && !pat.isEmpty then
      rep ++ pyReplaceAux pat rep fuel (cs.drop (pat.length - 1))
    else c :: pyReplaceAux pat rep fuel cs

def pyReplace (pat rep l : PyStr) : PyStr := pyReplaceAux pat rep l.length l

/-! ## Prompt builder (`src/tools/prompt_builder.py`) -/

/-- The consumed fragment of a retrieved `langchain` document. -/
structure Document where
  page_content : PyStr
  metadata_source : Option PyStr := none
deriving DecidableEq, Repr

/-- Embedding of `FeedbackEntry` dataclass. -/
structure FeedbackEntry where
  source : PyStr
  message : PyStr
deriving DecidableEq, Repr

/-- Embedding of `PromptBuilder` dataclass.  The live-system snapshot type is opaque to
every claim, so it is a type parameter `σ`. -/
structure PromptBuilder (σ : Type) where
  request : PyStr
  documents : List Document := []
  feedback_history : List FeedbackEntry := []
  last_candidate : Option PyStr := none
  system_context : Option σ := none

/-- Embedding of `PromptBuilder.add_feedback`: trim the message; a blank message is a
no-op, otherwise append a `FeedbackEntry` with the trimmed message. -/
def PromptBuilder.add_feedback (pb : PromptBuilder σ) (source message : PyStr) :
    PromptBuilder σ :=
  let normalized := pyStrip message
  if normalized.isEmpty then pb
  else { pb with
         feedback_history :=
           pb.feedback_history ++ [{ source := source, message := normalized }] }

/-- Embedding of `PromptBuilder.record_candidate`. -/
def PromptBuilder.record_candidate (pb : PromptBuilder σ) (code : PyStr) :
    PromptBuilder σ :=
  { pb with last_candidate := some (pyStrip code) }

/-- Embedding of `PromptBuilder.set_system_context`. -/
def PromptBuilder.set_system_context (pb : PromptBuilder σ) (ctx : σ) :
    PromptBuilder σ :=
  { pb with system_context := some ctx }

/-! ## Validator verdicts (`src/agents/validator_agent.py`,
`src/agents/context_validator.py`) -/

/-- Embedding of `ValidationResult` dataclass (syntax validator). -/
structure ValidationResult where
  verdict : PyStr
  summary : PyStr
  feedback : PyStr
  fixes : List PyStr
  raw_output : PyStr
deriving DecidableEq, Repr

/-- Embedding of `ValidationResult.is_valid = verdict.lower().startswith("valid")`. -/
def ValidationResult.is_valid (r : ValidationResult) : Bool :=
  ('v' :: 'a' :: 'l' :: 'i' :: 'd' :: []).isPrefixOf (lowerL r.verdict)

/-- Embedding of `ValidationResult.as_feedback_entry`. -/
def ValidationResult.as_feedback_entry (r : ValidationResult) : PyStr :=
  if r.is_valid then r.summary
  else
    joinNl ([r.summary] ++
      (if r.feedback.isEmpty then [] else [r.feedback]) ++
      (if r.fixes.isEmpty then [] else r.fixes))

/-- Embedding of `ContextValidationResult` dataclass (context validator). -/
structure ContextValidationResult where
  verdict : PyStr
  summary : PyStr
  feedback : PyStr
  fixes : List PyStr
  warnings : List PyStr
  raw_output : PyStr
deriving DecidableEq, Repr

/-- Embedding of `ContextValidationResult.is_valid = verdict.lower().startswith("valid")`. -/
def ContextValidationResult.is_valid (r : ContextValidationResult) : Bool :=
  ('v' :: 'a' :: 'l' :: 'i' :: 'd' :: []).isPrefixOf (lowerL r.verdict)

/-- Embedding of `ContextValidationResult.as_feedback_entry`. -/
def ContextValidationResult.as_feedback_entry (r : ContextValidationResult) : PyStr :=
  if r.is_valid then
    if r.warnings.isEmpty then r.summary
    else r.summary ++ ('\n' :: 'W' :: 'a' :: 'r' :: 'n' :: 'i' :: 'n' :: 'g' :: 's' :: ':' :: '\n' :: []) ++
      joinNl (r.warnings.map fun w => (' ' :: ' ' :: '-' :: ' ' :: []) ++ w)
  else
    joinNl ([r.summary] ++
      (if r.feedback.isEmpty then [] else [r.feedback]) ++
      (if r.fixes.isEmpty then []
       else ('S' :: 'u' :: 'g' :: 'g' :: 'e' :: 's' :: 't' :: 'e' :: 'd' :: ' ' :: 'f' :: 'i' :: 'x' :: 'e' :: 's' :: ':' :: []) ::
            r.fixes.map fun f => (' ' :: ' ' :: '-' :: ' ' :: []) ++ f))

/-- Embedding of `ValidatorAgent._parse_output` (syntax validator): try `json.loads`
on the raw output; on failure strip whitespace and surrounding backticks
and retry; on repeated failure synthesize an `invalid` verdict whose
`feedback` is the sanitized text.  A total function — parsing never
raises. -/
def validator_parse_output (output : PyStr) : Json :=
  match jsonLoads output with
  | some j => j
  | none =>
    let sanitized := pyStripBackticks (pyStrip output)
    match jsonLoads sanitized with
    | some j => j
    | none =>
      Json.obj
        [("verdict".data, Json.str "invalid".data),
         ("summary".data, Json.str "Unable to decode validator response.".data),
         ("feedback".data, Json.str sanitized),
         ("fixes".data, Json.arr [])]

/-- Embedding of `ContextValidatorAgent._parse_output`: as above but additionally
replacing the literals "```json" and "```" in the sanitized text before
the retry, and defaulting `warnings` in the synthetic verdict. -/
def context_validator_parse_output (output : PyStr) : Json :=
  match jsonLoads output with
  | some j => j
  | none =>
    let sanitized := pyStripBackticks (pyStrip output)
    let sanitized := pyReplace "```json".data [] sanitized
    let sanitized := pyReplace "```".data [] sanitized
    match jsonLoads sanitized with
    | some j => j
    | none =>
      Json.obj
        [("verdict".data, Json.str "invalid".data),
         ("summary".data, Json.str "Context validator response could not be parsed.".data),
         ("feedback".data, Json.str sanitized),
         ("fixes".data, Json.arr []),
         ("warnings".data, Json.arr [])]

/-! ## Well-formed rule blocks

For the parser round-trip property: a block renders as

  rule "<name>"
  when<whenPart>then<thenPart>end

(with a trailing newline).  Well-formedness demands a nonempty name
without a double quote, whitespace at both ends of the `when` and `then`
sections (so the keywords are genuine words), no backtick (so no line is
mistaken for a markdown fence), and no occurrence of the literal `rule`
(case-insensitively) after the header — the conditions under which one
block is one split chunk. -/

structure RuleBlock where
  name : PyStr
  whenPart : PyStr
  thenPart : PyStr
deriving DecidableEq, Repr

def renderBlock (b : RuleBlock) : PyStr :=
  'r' :: 'u' :: 'l' :: 'e' :: ' ' :: '"' ::
    (b.name ++ '"' :: '\n' :: 'w' :: 'h' :: 'e' :: 'n' ::
      (b.whenPart ++ 't' :: 'h' :: 'e' :: 'n' ::
        (b.thenPart ++ 'e' :: 'n' :: 'd' :: '\n' :: [])))

/-- Concatenation of rendered blocks — the text containing `N`
well-formed rule blocks. -/
def rulesText : List RuleBlock → PyStr
  | [] => []
  | b :: bs => renderBlock b ++ rulesText bs

/-- Predicate: true iff the literal `rule` occurs case-insensitively at no
position of the input. -/
def noCIRule : PyStr → Bool
  | [] => true
  | c :: cs => !(ciPrefixB ('r' :: 'u' :: 'l' :: 'e' :: []) (c :: cs)) && noCIRule cs

def headIsSpace : PyStr → Bool
  | [] => false
  | c :: _ => isSpace c

/-- Well-formedness of a rule block (see the section comment). -/
def wfBlock (b : RuleBlock) : Bool :=
  !b.name.isEmpty &&
  b.name.all (fun c => c != '"') &&
  noCIRule (List.drop 1 (renderBlock b)) &&
  (renderBlock b).all (fun c => c != backtick) &&
  headIsSpace b.whenPart && headIsSpace b.whenPart.reverse &&
  headIsSpace b.thenPart && headIsSpace b.thenPart.reverse

/-! ## Generation loop (`src/main.py`, `run_generation_loop`)

The generator and the two validators are LLM-backed agents; they are
modelled as oracle functions.  The generator and syntax validator consume
the current `PromptBuilder` state (the composition of the source's
`generator_variables()` / `validator_variables()` rendering with the
black-box service); the context validator takes exactly the arguments of
`ContextValidatorAgent.validate` (candidate code, system context,
request).  The loop control flow — state threading, feedback recording,
short-circuiting, and the terminal branches including the `RuntimeError`
guard — is embedded statement by statement.  An event trace is recorded
alongside the result to state temporal claims. -/

/-- Embedding of `GenerationResult` dataclass (`src/agents/policy_generator.py`). -/
structure GenerationResult where
  openhab_code : PyStr
  reasoning : Option PyStr := none
deriving DecidableEq, Repr

/-- Observable events of one loop execution, in chronological order. -/
inductive LoopEvent where
  | generated (attempt : Nat) (code : PyStr)
  | syntaxChecked (attempt : Nat) (code : PyStr) (valid : Bool)
  | contextChecked (attempt : Nat) (code : PyStr) (valid : Bool)
deriving DecidableEq, Repr

/-- Result of `run_generation_loop`: either the returned quadruple
`(generation, validation, is_valid, attempts_used)` or a raised
`RuntimeError` message. -/
abbrev LoopResult := Except PyStr (GenerationResult × ValidationResult × Bool × Nat)

/-- The `for attempt in range(1, max_attempts + 1)` body of
`run_generation_loop`, with the trailing exhaustion/`RuntimeError` code in
the fuel-zero case.  The fuel argument counts attempts still allowed;
when it is `remaining + 1` the 1-based attempt index being executed is
`maxAttempts - remaining`.  `events` is the reversed trace accumulator. -/
def runAttempts {σ : Type} (gen : PromptBuilder σ → GenerationResult)
    (syn : PromptBuilder σ → PyStr → ValidationResult)
    (ctxv : PyStr → σ → PyStr → ContextValidationResult)
    (request : PyStr) (maxAttempts : Nat) :
    Nat → PromptBuilder σ → Option GenerationResult → Option ValidationResult →
    List LoopEvent → LoopResult × List LoopEvent
  | 0, _, lastGen, lastVal, events =>
    match lastGen, lastVal with
    | some g, some v => (.ok (g, v, false, maxAttempts), events.reverse)
    | _, _ =>
      (.error ('G' :: 'e' :: 'n' :: 'e' :: 'r' :: 'a' :: 't' :: 'i' :: 'o' :: 'n' :: ' ' :: 'l' :: 'o' :: 'o' :: 'p' :: ' ' :: 't' :: 'e' :: 'r' :: 'm' :: 'i' :: 'n' :: 'a' :: 't' :: 'e' :: 'd' :: ' ' :: 'w' :: 'i' :: 't' :: 'h' :: 'o' :: 'u' :: 't' :: ' ' :: 'p' :: 'r' :: 'o' :: 'd' :: 'u' :: 'c' :: 'i' :: 'n' :: 'g' :: ' ' :: 'a' :: 'n' :: 'y' :: ' ' :: 'a' :: 't' :: 't' :: 'e' :: 'm' :: 'p' :: 't' :: 's' :: '.' :: []),
       events.reverse)
  | remaining + 1, pb, _lastGen, lastVal, events =>
    let attempt := maxAttempts - remaining
    let generation := gen pb
    let pb := pb.record_candidate generation.openhab_code
    let validation := syn pb generation.openhab_code
    let events := LoopEvent.syntaxChecked attempt generation.openhab_code validation.is_valid ::
                  LoopEvent.generated attempt generation.openhab_code :: events
    if validation.is_valid = false then
      let pb := pb.add_feedback
        (('s' :: 'y' :: 'n' :: 't' :: 'a' :: 'x' :: '_' :: 'v' :: 'a' :: 'l' :: 'i' :: 'd' :: 'a' :: 't' :: 'o' :: 'r' :: ' ' :: 'a' :: 't' :: 't' :: 'e' :: 'm' :: 'p' :: 't' :: ' ' :: []) ++ (Nat.repr attempt).data)
        validation.as_feedback_entry
      runAttempts gen syn ctxv request maxAttempts remaining pb (some generation) (some validation) events
    else
      match pb.system_context with
      | some sc =>
        let contextValidation := ctxv generation.openhab_code sc request
        let events := LoopEvent.contextChecked attempt generation.openhab_code contextValidation.is_valid :: events
        if contextValidation.is_valid = false then
          let pb := pb.add_feedback
            (('c' :: 'o' :: 'n' :: 't' :: 'e' :: 'x' :: 't' :: '_' :: 'v' :: 'a' :: 'l' :: 'i' :: 'd' :: 'a' :: 't' :: 'o' :: 'r' :: ' ' :: 'a' :: 't' :: 't' :: 'e' :: 'm' :: 'p' :: 't' :: ' ' :: []) ++ (Nat.repr attempt).data)
            contextValidation.as_feedback_entry
          runAttempts gen syn ctxv request maxAttempts remaining pb (some generation) none events
        else
          (.ok (generation, validation, true, attempt), events.reverse)
      | none =>
        (.ok (generation, validation, true, attempt), events.reverse)

/-- Embedding of `run_generation_loop`: build the prompt state (documents from the
retriever, optional system context), then iterate.  The source constructs
`ContextValidatorAgent` exactly when `system_context` is present and the
loop guard `if context_validator and system_context` tests both, so the
single `Option σ` drives the context-validation branch. -/
def run_generation_loop {σ : Type} (gen : PromptBuilder σ → GenerationResult)
    (syn : PromptBuilder σ → PyStr → ValidationResult)
    (ctxv : PyStr → σ → PyStr → ContextValidationResult)
    (request : PyStr) (docs : List Document) (maxAttempts : Nat)
    (systemContext : Option σ) : LoopResult × List LoopEvent :=
  let pb : PromptBuilder σ := { request := request, documents := docs }
  let pb := match systemContext with
            | some sc => pb.set_system_context sc
            | none => pb
  runAttempts gen syn ctxv request maxAttempts maxAttempts pb none none []

/-- Oracle for concrete loop executions: a generator returning fixed
code. -/
def constGenerator : PromptBuilder Unit → GenerationResult :=
  fun _ => { openhab_code := ("code").data }

/-- Oracle: a syntax validator that always returns `valid`. -/
def alwaysValidSyntax : PromptBuilder Unit → PyStr → ValidationResult :=
  fun _ _ => { verdict := ("valid").data, summary := ("ok").data,
               feedback := [], fixes := [], raw_output := [] }

/-- Oracle: a context validator that always returns `invalid`. -/
def alwaysInvalidContext : PyStr → Unit → PyStr → ContextValidationResult :=
  fun _ _ _ => { verdict := ("invalid").data, summary := ("bad").data,
                 feedback := [], fixes := [], warnings := [], raw_output := [] }

/-! # Theorems -/

/-! ## Inversion of `parse_rule` -/

theorem parse_rule_inv {text : PyStr} {sf : Option PyStr} {r : ParsedRule}
    (h : parse_rule text sf = some r) :
    ∃ nm, ruleSearch (pyStrip text) = some nm ∧
      r = { name := nm
            raw_text := pyStrip text
            trigger_items := extract_items_from_when ((whenSearch (pyStrip text)).getD [])
            action_items := extract_items_from_then ((thenSearch (pyStrip text)).getD [])
            all_items := pySet
              (extract_items_from_when ((whenSearch (pyStrip text)).getD []) ++
               extract_items_from_then ((thenSearch (pyStrip text)).getD []))
            source_file := sf } := by
  simp only [parse_rule] at h
  split at h
  · exact absurd h (by simp)
  · split at h
    · exact absurd h (by simp)
    · next nm hnm =>
      refine ⟨nm, hnm, ?_⟩
      injection h with h
      exact h.symm

/-- C7: for every rule the parser produces, `all_items` is exactly the
set union of `trigger_items` and `action_items`: same membership, no
duplicates. -/
theorem parse_rule_all_items_union (text : PyStr) (sf : Option PyStr) (r : ParsedRule)
    (h : parse_rule text sf = some r) :
    (∀ w, w ∈ r.all_items ↔ (w ∈ r.trigger_items ∨ w ∈ r.action_items)) ∧
    r.all_items.Nodup := by
  obtain ⟨nm, hnm, rfl⟩ := parse_rule_inv h
  refine ⟨fun w => ?_, List.nodup_dedup _⟩
  simp [pySet, List.mem_dedup, List.mem_append]

/-- Witness for C7 at a concrete rule. -/
theorem parse_rule_all_items_union_witness :
    parse_rule ("rule \"T\"\nwhen\n Item A changed\nthen\n A.state\nend").data none =
      some { name := ('T' :: [])
             raw_text := ("rule \"T\"\nwhen\n Item A changed\nthen\n A.state\nend").data
             trigger_items := [('A' :: [])]
             action_items := [('A' :: [])]
             all_items := [('A' :: [])]
             source_file := none } ∧
    ((∀ w, w ∈ [(('A' : Char) :: [])] ↔ (w ∈ [(('A' : Char) :: [])] ∨ w ∈ [(('A' : Char) :: [])])) ∧
      ([(('A' : Char) :: [])] : List PyStr).Nodup) := by
  constructor
  · rfl
  · have h := parse_rule_all_items_union
      ("rule \"T\"\nwhen\n Item A changed\nthen\n A.state\nend").data none
      { name := ('T' :: [])
        raw_text := ("rule \"T\"\nwhen\n Item A changed\nthen\n A.state\nend").data
        trigger_items := [('A' :: [])]
        action_items := [('A' :: [])]
        all_items := [('A' :: [])]
        source_file := none } (by rfl)
    exact h

/-! ## C3: the `is_valid` derivation -/

/-- C3 (amended): on the documented verdict enum (`valid` / `invalid`),
`is_valid` of both verdict types coincides with equality to `valid`.  (On
arbitrary strings the code tests `verdict.lower().startswith("valid")`,
which the counterexample below separates from equality.) -/
theorem is_valid_on_verdict_enum (r : ValidationResult) (c : ContextValidationResult) :
    (r.verdict = ("valid").data ∨ r.verdict = ("invalid").data →
      (r.is_valid = true ↔ r.verdict = ("valid").data)) ∧
    (c.verdict = ("valid").data ∨ c.verdict = ("invalid").data →
      (c.is_valid = true ↔ c.verdict = ("valid").data)) := by
  constructor
  · rintro (h | h) <;> simp [ValidationResult.is_valid, h] <;> decide
  · rintro (h | h) <;> simp [ContextValidationResult.is_valid, h] <;> decide

/-- Counterexample to C3 as stated: a verdict of `"VALID"` is not equal
to `"valid"` yet `is_valid` is true, because the code lower-cases and
tests only the prefix. -/
theorem is_valid_not_verdict_equality :
    (ValidationResult.mk ("VALID").data ("s").data [] [] []).is_valid = true ∧
    ("VALID").data ≠ ("valid").data := by
  exact ⟨by decide, by decide⟩

/-- Witness for C3 at the two enum verdicts. -/
theorem is_valid_on_verdict_enum_witness :
    ((ValidationResult.mk ("valid").data [] [] [] []).is_valid = true ↔
      ("valid").data = ("valid" : String).data) ∧
    ((ContextValidationResult.mk ("invalid").data [] [] [] [] []).is_valid = true ↔
      ("invalid").data = ("valid" : String).data) := by
  constructor
  · exact (is_valid_on_verdict_enum (ValidationResult.mk ("valid").data [] [] [] [])
      (ContextValidationResult.mk ("invalid").data [] [] [] [] [])).1 (Or.inl rfl)
  · exact (is_valid_on_verdict_enum (ValidationResult.mk ("valid").data [] [] [] [])
      (ContextValidationResult.mk ("invalid").data [] [] [] [] [])).2 (Or.inr rfl)

/-! ## C8: feedback recording -/

/-- C8 (amended): `add_feedback` with a whitespace-only message leaves the
history unchanged; with a message that is nonempty after trimming it
appends exactly one entry whose `source` is the source argument and whose
`message` is the *trimmed* message argument (the counterexample below
shows the untrimmed message is not stored). -/
theorem add_feedback_spec {σ : Type} (pb : PromptBuilder σ) (src msg : PyStr) :
    ((pyStrip msg).isEmpty = true →
      (pb.add_feedback src msg).feedback_history = pb.feedback_history) ∧
    ((pyStrip msg).isEmpty = false →
      (pb.add_feedback src msg).feedback_history
        = pb.feedback_history ++ [{ source := src, message := pyStrip msg }] ∧
      (pb.add_feedback src msg).feedback_history.length
        = pb.feedback_history.length + 1) := by
  constructor <;> intro h <;> simp [PromptBuilder.add_feedback, h]

/-- Counterexample to C8 as stated: the entry appended for the message
`" hi "` stores the trimmed text `"hi"`, which differs from the call
argument. -/
theorem add_feedback_stores_trimmed_message :
    ((({ request := [] } : PromptBuilder Unit).add_feedback
        ('s' :: []) (' ' :: 'h' :: 'i' :: ' ' :: [])).feedback_history
      = [{ source := ('s' :: []), message := ('h' :: 'i' :: []) }]) ∧
    ('h' :: 'i' :: [] : PyStr) ≠ (' ' :: 'h' :: 'i' :: ' ' :: []) := by
  exact ⟨by rfl, by decide⟩

/-- Witness for C8: a whitespace-only and a plain message. -/
theorem add_feedback_spec_witness :
    ((({ request := [] } : PromptBuilder Unit).add_feedback
        ('s' :: []) (' ' :: ' ' :: [])).feedback_history
      = ({ request := [] } : PromptBuilder Unit).feedback_history) ∧
    ((({ request := [] } : PromptBuilder Unit).add_feedback
        ('s' :: []) ('h' :: 'i' :: [])).feedback_history
      = ({ request := [] } : PromptBuilder Unit).feedback_history ++
          [{ source := ('s' :: []), message := pyStrip ('h' :: 'i' :: []) }]) := by
  refine ⟨(add_feedback_spec _ _ _).1 (by decide), ?_⟩
  exact ((add_feedback_spec ({ request := [] } : PromptBuilder Unit)
    ('s' :: []) ('h' :: 'i' :: [])).2 (by decide)).1

/-! ## C5: parser null-safety -/

/-- C5: `parse_rule` is a total function (the embedding cannot raise);
the empty string, `"not a rule"`, and more generally any text in which
the header pattern finds no match all yield `none`. -/
theorem parse_rule_null_safety :
    parse_rule ("").data none = none ∧
    parse_rule ("not a rule").data none = none ∧
    ∀ s sf, ruleSearch (pyStrip s) = none → parse_rule s sf = none := by
  refine ⟨by rfl, by rfl, fun s sf h => ?_⟩
  simp only [parse_rule]
  split
  · rfl
  · rw [h]

/-- Witness for C5 at `"just some text"`. -/
theorem parse_rule_null_safety_witness :
    ruleSearch (pyStrip ("just some text").data) = none ∧
    parse_rule ("just some text").data none = none := by
  exact ⟨by rfl, parse_rule_null_safety.2.2 ("just some text").data none (by rfl)⟩

/-! ## C1: behaviour on an exhausted retry budget -/

/-- C1 (code bug): with a syntax validator that always returns `valid`, a
context validator that always returns `invalid`, and `max_attempts = 2`,
the loop does not return an `is_valid=false` result with a null
validation marker as the claim states.  The context-failure path sets
`last_validation = None`, so after the final attempt the guard
`if last_generation is None or last_validation is None` fires and the
code raises `RuntimeError` — the loop raises exactly in the scenario the
spec describes as a normal terminal outcome. -/
theorem loop_context_exhaustion_raises :
    (run_generation_loop constGenerator alwaysValidSyntax alwaysInvalidContext
      ("req").data [] 2 (some ())).1 =
    Except.error
      ("Generation loop terminated without producing any attempts.").data := by
  rfl

/-! ## C2: the JSON-fallback response parsers -/

/-- C2 (code bug): the spec's own example — a JSON verdict object wrapped
in markdown fences with a `json` language tag.  The unfenced payload
decodes to a verdict of `valid` (first conjunct), but both validators'
response parsers fail to recover it: sanitization strips the surrounding
backticks first, leaving a stray `json` prefix that no longer matches the
later "```json" removal (context validator) and is not removed at all
(syntax validator), so `json.loads` fails and both synthesize an
`invalid` verdict.  Both parsers are total functions — parsing never
raises — and the sanitized text is carried in `feedback`. -/
theorem parse_output_fenced_json_not_recovered :
    Option.bind
      (jsonLoads ("\x7b\"verdict\": \"valid\", \"summary\": \"ok\"\x7d").data)
      (jsonGet ("verdict").data) = some (Json.str ("valid").data) ∧
    jsonGet ("verdict").data
      (validator_parse_output
        ("```json\n\x7b\"verdict\": \"valid\", \"summary\": \"ok\"\x7d\n```").data)
      = some (Json.str ("invalid").data) ∧
    jsonGet ("verdict").data
      (context_validator_parse_output
        ("```json\n\x7b\"verdict\": \"valid\", \"summary\": \"ok\"\x7d\n```").data)
      = some (Json.str ("invalid").data) ∧
    jsonGet ("feedback").data
      (validator_parse_output
        ("```json\n\x7b\"verdict\": \"valid\", \"summary\": \"ok\"\x7d\n```").data)
      = some (Json.str
          ("json\n\x7b\"verdict\": \"valid\", \"summary\": \"ok\"\x7d\n").data) := by
  refine ⟨by rfl, by rfl, by rfl, by rfl⟩

/-! ## C4: the shape of extracted item names -/

theorem tryItemChanged_word {l w r : PyStr} (h : tryItemChanged l = some (w, r)) :
    w ≠ [] ∧ ∀ c ∈ w, isWordChar c = true := by
  unfold tryItemChanged at h
  cases h1 : ciLit ('i' :: 't' :: 'e' :: 'm' :: []) l with
  | none => simp [h1] at h
  | some l1 =>
    cases h2 : dropSpaces1 l1 with
    | none => simp [h1, h2] at h
    | some l2 =>
      cases h3 : takeWord1 l2 with
      | none => simp [h1, h2, h3] at h
      | some wl3 =>
        obtain ⟨w', l3⟩ := wl3
        cases h4 : dropSpaces1 l3 with
        | none => simp [h1, h2, h3, h4] at h
        | some l4 =>
          have hword := takeWord1_rest h3
          simp only [h1, h2, h3, h4, Option.bind_eq_bind, Option.some_bind] at h
          cases h5 : ciLit ('c' :: 'h' :: 'a' :: 'n' :: 'g' :: 'e' :: 'd' :: []) l4 with
          | some r1 =>
            simp [h5] at h
            obtain ⟨rfl, rfl⟩ := h
            exact ⟨hword.2.1, hword.2.2⟩
          | none =>
            cases h6 : ciLit ('r' :: 'e' :: 'c' :: 'e' :: 'i' :: 'v' :: 'e' :: 'd' :: []) l4 with
            | some r2 =>
              simp [h5, h6] at h
              obtain ⟨rfl, rfl⟩ := h
              exact ⟨hword.2.1, hword.2.2⟩
            | none => simp [h5, h6] at h

theorem tryItemState_word {l w r : PyStr} (h : tryItemState l = some (w, r)) :
    w ≠ [] ∧ ∀ c ∈ w, isWordChar c = true := by
  unfold tryItemState at h
  cases h1 : takeWord1 l with
  | none => simp [h1] at h
  | some wl1 =>
    obtain ⟨w', l1⟩ := wl1
    have hword := takeWord1_rest h1
    simp only [h1, Option.bind_eq_bind, Option.some_bind] at h
    cases l1 with
    | nil => simp at h
    | cons c l2 =>
      by_cases hc : c = '.'
      · subst hc
        simp only at h
        cases h5 : ciLit ('s' :: 't' :: 'a' :: 't' :: 'e' :: []) l2 with
        | some r1 =>
          simp [h5] at h
          obtain ⟨rfl, rfl⟩ := h
          exact ⟨hword.2.1, hword.2.2⟩
        | none => simp [h5] at h
      · simp [hc] at h

theorem tryCallArg_word {fname l w r : PyStr} (h : tryCallArg fname l = some (w, r)) :
    w ≠ [] ∧ ∀ c ∈ w, isWordChar c = true := by
  unfold tryCallArg at h
  cases h1 : ciLit fname l with
  | none => simp [h1] at h
  | some l1 =>
    simp only [h1, Option.bind_eq_bind, Option.some_bind] at h
    cases h2 : l1.dropWhile isSpace with
    | nil => rw [h2] at h; simp at h
    | cons c l3 =>
      rw [h2] at h
      by_cases hc : c = '('
      · subst hc
        simp only at h
        have := takeWord1_rest h
        exact ⟨this.2.1, this.2.2⟩
      · simp [hc] at h

theorem iterItemChangedAux_wordlike :
    ∀ fuel (l w : PyStr), w ∈ iterItemChangedAux fuel l →
      w ≠ [] ∧ ∀ c ∈ w, isWordChar c = true := by
  intro fuel
  induction fuel with
  | zero => intro l w hw; simp [iterItemChangedAux] at hw
  | succ fuel ih =>
    intro l w hw
    cases l with
    | nil => simp [iterItemChangedAux] at hw
    | cons c cs =>
      cases htry : tryItemChanged (c :: cs) with
      | some wr =>
        obtain ⟨w1, r⟩ := wr
        simp only [iterItemChangedAux, htry, List.mem_cons] at hw
        rcases hw with rfl | hw
        · exact tryItemChanged_word htry
        · exact ih r w hw
      | none =>
        simp only [iterItemChangedAux, htry] at hw
        exact ih cs w hw

theorem iterItemStateAux_wordlike :
    ∀ fuel (l w : PyStr), w ∈ iterItemStateAux fuel l →
      w ≠ [] ∧ ∀ c ∈ w, isWordChar c = true := by
  intro fuel
  induction fuel with
  | zero => intro l w hw; simp [iterItemStateAux] at hw
  | succ fuel ih =>
    intro l w hw
    cases l with
    | nil => simp [iterItemStateAux] at hw
    | cons c cs =>
      cases htry : tryItemState (c :: cs) with
      | some wr =>
        obtain ⟨w1, r⟩ := wr
        simp only [iterItemStateAux, htry, List.mem_cons] at hw
        rcases hw with rfl | hw
        · exact tryItemState_word htry
        · exact ih r w hw
      | none =>
        simp only [iterItemStateAux, htry] at hw
        exact ih cs w hw

theorem iterCallArgAux_wordlike (fname : PyStr) :
    ∀ fuel (l w : PyStr), w ∈ iterCallArgAux fname fuel l →
      w ≠ [] ∧ ∀ c ∈ w, isWordChar c = true := by
  intro fuel
  induction fuel with
  | zero => intro l w hw; simp [iterCallArgAux] at hw
  | succ fuel ih =>
    intro l w hw
    cases l with
    | nil => simp [iterCallArgAux] at hw
    | cons c cs =>
      cases htry : tryCallArg fname (c :: cs) with
      | some wr =>
        obtain ⟨w1, r⟩ := wr
        simp only [iterCallArgAux, htry, List.mem_cons] at hw
        rcases hw with rfl | hw
        · exact tryCallArg_word htry
        · exact ih r w hw
      | none =>
        simp only [iterCallArgAux, htry] at hw
        exact ih cs w hw

/-- C4 (amended): every name the parser places into `trigger_items` or
`action_items` is a nonempty run of word characters (letters, digits,
underscores).  The uppercase-first-letter requirement of the claim does
NOT hold: the extraction regexes capture `\w+`, and the uppercase-only
`ITEM_PATTERN` is defined but never used, so lowercase- or digit-initial
names are extracted (see the counterexample). -/
theorem parse_rule_item_names_wordlike (text : PyStr) (sf : Option PyStr) (r : ParsedRule)
    (h : parse_rule text sf = some r) (w : PyStr)
    (hw : w ∈ r.trigger_items ∨ w ∈ r.action_items) :
    w ≠ [] ∧ ∀ c ∈ w, isWordChar c = true := by
  obtain ⟨nm, hnm, rfl⟩ := parse_rule_inv h
  rcases hw with hw | hw
  · simp only [extract_items_from_when, pySet, List.mem_dedup, List.mem_append] at hw
    rcases hw with hw | hw
    · exact iterItemChangedAux_wordlike _ _ _ hw
    · exact iterItemStateAux_wordlike _ _ _ hw
  · simp only [extract_items_from_then, pySet, List.mem_dedup, List.mem_append] at hw
    rcases hw with (hw | hw) | hw
    · exact iterCallArgAux_wordlike _ _ _ _ hw
    · exact iterCallArgAux_wordlike _ _ _ _ hw
    · exact iterItemStateAux_wordlike _ _ _ hw

/-- Counterexample to C4 as stated: the parser extracts the
lowercase-initial trigger name `lamp`, which the claim says is never
extracted. -/
theorem parse_rule_extracts_lowercase_item :
    (parse_rule ("rule \"R\"\nwhen\n  Item lamp changed\nthen\nend").data none).map
      ParsedRule.trigger_items = some [('l' :: 'a' :: 'm' :: 'p' :: [])] ∧
    ('A' ≤ 'l' && 'l' ≤ 'Z') = false := by
  exact ⟨by rfl, by decide⟩

/-- Witness for C4 at a concrete rule. -/
theorem parse_rule_item_names_wordlike_witness :
    parse_rule ("rule \"W\"\nwhen\n Item Motion_1 changed\nthen\nend").data none =
      some { name := ('W' :: [])
             raw_text := ("rule \"W\"\nwhen\n Item Motion_1 changed\nthen\nend").data
             trigger_items := [('M' :: 'o' :: 't' :: 'i' :: 'o' :: 'n' :: '_' :: '1' :: [])]
             action_items := []
             all_items := [('M' :: 'o' :: 't' :: 'i' :: 'o' :: 'n' :: '_' :: '1' :: [])]
             source_file := none } ∧
    (('M' :: 'o' :: 't' :: 'i' :: 'o' :: 'n' :: '_' :: '1' :: [] : PyStr) ≠ [] ∧
      ∀ c ∈ ('M' :: 'o' :: 't' :: 'i' :: 'o' :: 'n' :: '_' :: '1' :: [] : PyStr),
        isWordChar c = true) := by
  refine ⟨by rfl, ?_⟩
  exact parse_rule_item_names_wordlike
    ("rule \"W\"\nwhen\n Item Motion_1 changed\nthen\nend").data none
    { name := ('W' :: [])
      raw_text := ("rule \"W\"\nwhen\n Item Motion_1 changed\nthen\nend").data
      trigger_items := [('M' :: 'o' :: 't' :: 'i' :: 'o' :: 'n' :: '_' :: '1' :: [])]
      action_items := []
      all_items := [('M' :: 'o' :: 't' :: 'i' :: 'o' :: 'n' :: '_' :: '1' :: [])]
      source_file := none } (by rfl) _ (Or.inl (by decide))

/-! ## C9: context validation runs only after a same-attempt syntax pass

`runAttempts` accumulates events in reverse, so the chronological
"immediately preceded by" becomes "immediately followed by" in the
accumulator: `ctxFollowed` states that every context-check entry is
followed by the passing syntax check of the same attempt and candidate. -/

def ctxFollowed (l : List LoopEvent) : Prop :=
  ∀ x n code b y, l = x ++ LoopEvent.contextChecked n code b :: y →
    ∃ z, y = LoopEvent.syntaxChecked n code true :: z

theorem ctxFollowed_nil : ctxFollowed [] := by
  intro x n code b y hx
  exact absurd hx (by simp)

theorem ctxFollowed_push2 {acc : List LoopEvent} (h : ctxFollowed acc)
    (a : Nat) (c : PyStr) (v : Bool) :
    ctxFollowed (LoopEvent.syntaxChecked a c v :: LoopEvent.generated a c :: acc) := by
  intro x n code b y hx
  cases x with
  | nil => simp at hx
  | cons e1 x1 =>
    rw [List.cons_append] at hx
    injection hx with h1 hx
    cases x1 with
    | nil => simp at hx
    | cons e2 x2 =>
      rw [List.cons_append] at hx
      injection hx with h2 hx
      exact h x2 n code b y hx

theorem ctxFollowed_push_ctx {acc : List LoopEvent} {a : Nat} {c : PyStr}
    (h : ctxFollowed (LoopEvent.syntaxChecked a c true :: acc)) (b : Bool) :
    ctxFollowed (LoopEvent.contextChecked a c b ::
      LoopEvent.syntaxChecked a c true :: acc) := by
  intro x n code b2 y hx
  cases x with
  | nil =>
    rw [List.nil_append] at hx
    injection hx with h1 hx
    injection h1 with ha hc hb
    subst ha; subst hc
    exact ⟨acc, hx.symm⟩
  | cons e1 x1 =>
    rw [List.cons_append] at hx
    injection hx with h1 hx
    exact h x1 n code b2 y hx

theorem runAttempts_ctxFollowed {σ : Type} (gen : PromptBuilder σ → GenerationResult)
    (syn : PromptBuilder σ → PyStr → ValidationResult)
    (ctxv : PyStr → σ → PyStr → ContextValidationResult)
    (request : PyStr) (maxAttempts : Nat) :
    ∀ fuel (pb : PromptBuilder σ) lastGen lastVal (events : List LoopEvent),
      ctxFollowed events →
      ctxFollowed
        ((runAttempts gen syn ctxv request maxAttempts fuel pb
            lastGen lastVal events).2).reverse := by
  intro fuel
  induction fuel with
  | zero =>
    intro pb lg lv events h
    cases lg <;> cases lv <;> simpa [runAttempts, List.reverse_reverse] using h
  | succ fuel ih =>
    intro pb lg lv events h
    simp only [runAttempts]
    by_cases hv :
        (syn (pb.record_candidate (gen pb).openhab_code) (gen pb).openhab_code).is_valid
          = false
    · rw [if_pos hv]
      exact ih _ _ _ _ (ctxFollowed_push2 h _ _ _)
    · rw [if_neg hv]
      have hvt :
          (syn (pb.record_candidate (gen pb).openhab_code) (gen pb).openhab_code).is_valid
            = true := by
        revert hv
        cases (syn (pb.record_candidate (gen pb).openhab_code) (gen pb).openhab_code).is_valid <;>
          simp
      rw [hvt]
      cases hsc : (pb.record_candidate (gen pb).openhab_code).system_context with
      | some sc =>
        simp only []
        by_cases hcv : (ctxv (gen pb).openhab_code sc request).is_valid = false
        · rw [if_pos hcv]
          exact ih _ _ _ _ (ctxFollowed_push_ctx (ctxFollowed_push2 h _ _ _) _)
        · rw [if_neg hcv]
          simpa [List.reverse_reverse] using
            ctxFollowed_push_ctx (ctxFollowed_push2 h _ _ _) _
      | none =>
        simpa [List.reverse_reverse] using ctxFollowed_push2 h _ _ _

theorem runAttempts_context_trace {σ : Type}
    (gen : PromptBuilder σ → GenerationResult)
    (syn : PromptBuilder σ → PyStr → ValidationResult)
    (ctxv : PyStr → σ → PyStr → ContextValidationResult)
    (request : PyStr) (maxAttempts fuel : Nat) (pb : PromptBuilder σ)
    (pre post : List LoopEvent) (n : Nat) (code : PyStr) (b : Bool)
    (h : (runAttempts gen syn ctxv request maxAttempts fuel pb none none []).2
          = pre ++ LoopEvent.contextChecked n code b :: post) :
    ∃ pre2, pre = pre2 ++ [LoopEvent.syntaxChecked n code true] := by
  have hinv :=
    runAttempts_ctxFollowed gen syn ctxv request maxAttempts fuel pb
      none none [] ctxFollowed_nil
  rw [h] at hinv
  have hsplit :
      (pre ++ LoopEvent.contextChecked n code b :: post).reverse
        = post.reverse ++ LoopEvent.contextChecked n code b :: pre.reverse := by
    simp
  rw [hsplit] at hinv
  obtain ⟨z, hz⟩ := hinv post.reverse n code b pre.reverse rfl
  refine ⟨z.reverse, ?_⟩
  have := congrArg List.reverse hz
  simpa using this

/-- C9: in every execution of the loop, a context-validation event is
always immediately preceded in the trace by the *passing* syntax check of
the same attempt and the same candidate: the context validator never runs
on an attempt whose syntax validation did not return valid. -/
theorem context_check_only_after_syntax_pass {σ : Type}
    (gen : PromptBuilder σ → GenerationResult)
    (syn : PromptBuilder σ → PyStr → ValidationResult)
    (ctxv : PyStr → σ → PyStr → ContextValidationResult)
    (request : PyStr) (docs : List Document) (maxAttempts : Nat)
    (sc : Option σ) (pre post : List LoopEvent) (n : Nat) (code : PyStr) (b : Bool)
    (h : (run_generation_loop gen syn ctxv request docs maxAttempts sc).2
          = pre ++ LoopEvent.contextChecked n code b :: post) :
    ∃ pre2, pre = pre2 ++ [LoopEvent.syntaxChecked n code true] := by
  cases sc with
  | some s =>
    simp only [run_generation_loop] at h
    exact runAttempts_context_trace gen syn ctxv request maxAttempts maxAttempts
      _ pre post n code b h
  | none =>
    simp only [run_generation_loop] at h
    exact runAttempts_context_trace gen syn ctxv request maxAttempts maxAttempts
      _ pre post n code b h

/-- Witness for C9: a run whose trace ends in a context check. -/
theorem context_check_only_after_syntax_pass_witness :
    ∃ pre2, [LoopEvent.generated 1 ("code").data,
             LoopEvent.syntaxChecked 1 ("code").data true]
      = pre2 ++ [LoopEvent.syntaxChecked 1 ("code").data true] :=
  context_check_only_after_syntax_pass constGenerator alwaysValidSyntax
    alwaysInvalidContext ("req").data [] 1 (some ())
    [LoopEvent.generated 1 ("code").data,
     LoopEvent.syntaxChecked 1 ("code").data true]
    [] 1 ("code").data false (by rfl)

/-! ## C10: header present, sections absent -/

theorem ciPrefixB_lowerL {pat l : PyStr} (h : ciPrefixB pat l = true) :
    (lowerL pat).isPrefixOf (lowerL l) = true := by
  induction pat generalizing l with
  | nil => simp [lowerL, List.isPrefixOf]
  | cons p ps ih =>
    cases l with
    | nil => simp [ciPrefixB] at h
    | cons c cs =>
      simp only [ciPrefixB, Bool.and_eq_true, beq_iff_eq] at h
      simp only [lowerL, List.map_cons, List.isPrefixOf, Bool.and_eq_true, beq_iff_eq]
      exact ⟨h.1.symm, ih h.2⟩

theorem isPrefixOf_containsSub {pat l : PyStr} (h : pat.isPrefixOf l = true) :
    containsSub pat l = true := by
  cases l with
  | nil =>
    cases pat with
    | nil => rfl
    | cons p ps => simp [List.isPrefixOf] at h
  | cons c cs => simp [containsSub, h]

theorem containsSub_cons {pat l : PyStr} (c : Char) (h : containsSub pat l = true) :
    containsSub pat (c :: l) = true := by
  simp [containsSub, h]

theorem tryRuleAt_ciPrefix {l nm : PyStr} (h : tryRuleAt l = some nm) :
    ciPrefixB ('r' :: 'u' :: 'l' :: 'e' :: []) l = true := by
  unfold tryRuleAt at h
  cases h1 : ciLit ('r' :: 'u' :: 'l' :: 'e' :: []) l with
  | none => simp [h1] at h
  | some l1 =>
    unfold ciLit at h1
    by_cases hp : ciPrefixB ('r' :: 'u' :: 'l' :: 'e' :: []) l = true
    · exact hp
    · simp [hp] at h1

theorem ruleSearch_contains {l nm : PyStr} (h : ruleSearch l = some nm) :
    containsSub ('r' :: 'u' :: 'l' :: 'e' :: []) (lowerL l) = true := by
  induction l with
  | nil => simp [ruleSearch] at h
  | cons c cs ih =>
    rw [ruleSearch] at h
    cases htry : tryRuleAt (c :: cs) with
    | some nm2 =>
      have hp := ciPrefixB_lowerL (tryRuleAt_ciPrefix htry)
      have heq : lowerL ('r' :: 'u' :: 'l' :: 'e' :: []) = ('r' :: 'u' :: 'l' :: 'e' :: []) := by
        decide
      rw [heq] at hp
      exact isPrefixOf_containsSub hp
    | none =>
      rw [htry] at h
      have hrec := ih h
      have : lowerL (c :: cs) = asciiLower c :: lowerL cs := by simp [lowerL]
      rw [this]
      exact containsSub_cons _ hrec

/-- C10: if the stripped text has a `rule "<name>"` header but the
`when`/`then` span searches both fail, `parse_rule` still returns a
record: the quoted name, the stripped raw text, and empty trigger,
action and item sets. -/
theorem parse_rule_header_no_sections (s : PyStr) (sf : Option PyStr) (nm : PyStr)
    (h1 : ruleSearch (pyStrip s) = some nm)
    (h2 : whenSearch (pyStrip s) = none) (h3 : thenSearch (pyStrip s) = none) :
    parse_rule s sf = some { name := nm
                             raw_text := pyStrip s
                             trigger_items := []
                             action_items := []
                             all_items := []
                             source_file := sf } := by
  have hne : (pyStrip s).isEmpty = false := by
    cases hp : pyStrip s with
    | nil => rw [hp] at h1; simp [ruleSearch] at h1
    | cons a as => simp
  have hcs := ruleSearch_contains h1
  simp [parse_rule, hne, hcs, h1, h2, h3, extract_items_from_when,
    extract_items_from_then, iterItemChanged, iterItemState, iterCallArg,
    iterItemChangedAux, iterItemStateAux, iterCallArgAux, pySet]

/-! ## C6: round-trip of well-formed rule blocks

Infrastructure: `cleanRun pc xs rest` states that while the splitter
scans across `xs` (followed by `rest`), no split point fires; `lastPC`
tracks the character preceding the scan position. -/

def cleanRun : Option Char → PyStr → PyStr → Bool
  | _, [], _ => true
  | pc, c :: cs, rest => !(splitHereB pc (c :: (cs ++ rest))) && cleanRun (some c) cs rest

def lastPC (pc : Option Char) : PyStr → Option Char
  | [] => pc
  | c :: cs => lastPC (some c) cs

/-- All of a rendered block except the leading `r` and the trailing
`nd\n`; `renderBlock b = 'r' :: (blockCore b ++ "nd\n")`. -/
def blockCore (b : RuleBlock) : PyStr :=
  'u' :: 'l' :: 'e' :: ' ' :: '"' ::
    (b.name ++ '"' :: '\n' :: 'w' :: 'h' :: 'e' :: 'n' ::
      (b.whenPart ++ 't' :: 'h' :: 'e' :: 'n' ::
        (b.thenPart ++ 'e' :: [])))

theorem renderBlock_core (b : RuleBlock) :
    renderBlock b = 'r' :: (blockCore b ++ ('n' :: 'd' :: '\n' :: [])) := by
  simp [renderBlock, blockCore]

theorem lastPC_append (pc : Option Char) (xs ys : PyStr) :
    lastPC pc (xs ++ ys) = lastPC (lastPC pc xs) ys := by
  induction xs generalizing pc with
  | nil => simp [lastPC]
  | cons c cs ih => simp [lastPC, ih]

theorem splitAux_append {xs rest acc : PyStr} {pc : Option Char}
    (h : cleanRun pc xs rest = true) :
    splitAux acc pc (xs ++ rest) = splitAux (xs.reverse ++ acc) (lastPC pc xs) rest := by
  induction xs generalizing acc pc with
  | nil => simp [lastPC]
  | cons c cs ih =>
    simp only [cleanRun, Bool.and_eq_true, Bool.not_eq_true'] at h
    rw [List.cons_append]
    simp only [splitAux, List.append_eq, h.1, Bool.false_eq_true, if_false]
    rw [ih h.2]
    simp [lastPC, List.append_assoc]

theorem ciPrefixB_append {pat xs : PyStr} (rest : PyStr) (h : pat.length ≤ xs.length) :
    ciPrefixB pat (xs ++ rest) = ciPrefixB pat xs := by
  induction pat generalizing xs with
  | nil => simp [ciPrefixB]
  | cons p ps ih =>
    cases xs with
    | nil => simp at h
    | cons c cs =>
      simp only [List.cons_append, ciPrefixB, List.append_eq]
      rw [ih (by simpa using h)]

theorem ciPrefixB_rule_cons {c : Char} (l : PyStr)
    (h : (asciiLower c == 'r') = false) :
    ciPrefixB ('r' :: 'u' :: 'l' :: 'e' :: []) (c :: l) = false := by
  have hr : asciiLower 'r' = 'r' := by decide
  simp [ciPrefixB, hr, h]

theorem ciPrefixB_rule_self (x : PyStr) :
    ciPrefixB ('r' :: 'u' :: 'l' :: 'e' :: [])
      ('r' :: 'u' :: 'l' :: 'e' :: x) = true := by
  simp [ciPrefixB]

theorem ciPrefixB_rule_head_n (l : PyStr) :
    ciPrefixB ('r' :: 'u' :: 'l' :: 'e' :: []) ('n' :: l) = false := by
  simp [ciPrefixB, show (asciiLower 'n' == asciiLower 'r') = false from by decide]

theorem ciPrefixB_rule_head_d (l : PyStr) :
    ciPrefixB ('r' :: 'u' :: 'l' :: 'e' :: []) ('d' :: l) = false := by
  simp [ciPrefixB, show (asciiLower 'd' == asciiLower 'r') = false from by decide]

theorem ciPrefixB_rule_head_nl (l : PyStr) :
    ciPrefixB ('r' :: 'u' :: 'l' :: 'e' :: []) ('\n' :: l) = false := by
  simp [ciPrefixB, show (asciiLower '\n' == asciiLower 'r') = false from by decide]

theorem splitHereB_of_ciPrefixB_false {pc : Option Char} {l : PyStr}
    (h : ciPrefixB ('r' :: 'u' :: 'l' :: 'e' :: []) l = false) :
    splitHereB pc l = false := by
  simp [splitHereB, ruleQuotePrefixB, h]

theorem cleanRun_of_noCIRule :
    ∀ (zs rest : PyStr) (pc : Option Char),
      noCIRule (zs ++ ('n' :: 'd' :: '\n' :: [])) = true →
      cleanRun pc (zs ++ ('n' :: 'd' :: '\n' :: [])) rest = true := by
  intro zs
  induction zs with
  | nil =>
    intro rest pc _
    show cleanRun pc (('n' : Char) :: 'd' :: '\n' :: []) rest = true
    simp only [cleanRun, List.cons_append, List.nil_append, Bool.and_eq_true,
      Bool.not_eq_true']
    exact ⟨splitHereB_of_ciPrefixB_false (ciPrefixB_rule_head_n _),
      splitHereB_of_ciPrefixB_false (ciPrefixB_rule_head_d _),
      splitHereB_of_ciPrefixB_false (ciPrefixB_rule_head_nl _), trivial⟩
  | cons z zs ih =>
    intro rest pc h
    simp only [List.cons_append, noCIRule, Bool.and_eq_true, Bool.not_eq_true',
      List.append_eq] at h
    rw [List.cons_append]
    simp only [cleanRun, Bool.and_eq_true, Bool.not_eq_true', List.append_eq]
    constructor
    · have hlen : ('r' :: 'u' :: 'l' :: 'e' :: [] : PyStr).length
          ≤ (z :: (zs ++ ('n' :: 'd' :: '\n' :: []))).length := by
        simp
      have hci := @ciPrefixB_append ('r' :: 'u' :: 'l' :: 'e' :: [])
        (z :: (zs ++ ('n' :: 'd' :: '\n' :: []))) rest hlen
      rw [List.cons_append] at hci
      apply splitHereB_of_ciPrefixB_false
      simp only [List.append_assoc] at hci ⊢
      rw [hci]
      simpa [List.append_eq] using h.1
    · exact ih rest (some z) h.2

theorem ruleQuotePrefixB_render (b : RuleBlock) (rest : PyStr) :
    ruleQuotePrefixB (renderBlock b ++ rest) = true := by
  simp only [renderBlock, List.cons_append, ruleQuotePrefixB, ciPrefixB_rule_self,
    Bool.true_and, List.drop_succ_cons, List.drop_zero, quoteAfterSpaces]
  simp [quoteAfterSpaces, (by decide : isSpace ' ' = true),
    (by decide : isSpace '"' = false)]

theorem splitHereB_render {pc : Option Char} (hb : boundaryB pc = true)
    (b : RuleBlock) (rest : PyStr) :
    splitHereB pc (renderBlock b ++ rest) = true := by
  simp [splitHereB, hb, ruleQuotePrefixB_render]

theorem splitAux_cut {acc : PyStr} {pc : Option Char} {c : Char} {cs : PyStr}
    (h : splitHereB pc (c :: cs) = true) :
    splitAux acc pc (c :: cs) = acc.reverse :: splitAux [c] (some c) cs := by
  simp [splitAux, h]

theorem splitAux_rulesText :
    ∀ (bs : List RuleBlock), (∀ b ∈ bs, wfBlock b = true) →
      ∀ (acc : PyStr) (pc : Option Char), boundaryB pc = true →
        splitAux acc pc (rulesText bs) = acc.reverse :: bs.map renderBlock := by
  intro bs
  induction bs with
  | nil =>
    intro _ acc pc _
    simp [rulesText, splitAux]
  | cons b bs ih =>
    intro hwf acc pc hpc
    have hwfb : wfBlock b = true := hwf b (by simp)
    have hnc : noCIRule (blockCore b ++ ('n' :: 'd' :: '\n' :: [])) = true := by
      have h3 : noCIRule (List.drop 1 (renderBlock b)) = true := by
        simp only [wfBlock, Bool.and_eq_true] at hwfb
        tauto
      rw [renderBlock_core] at h3
      simpa using h3
    have hcut := splitHereB_render hpc b (rulesText bs)
    rw [renderBlock_core, List.cons_append] at hcut
    show splitAux acc pc (renderBlock b ++ rulesText bs) = _
    rw [renderBlock_core, List.cons_append, splitAux_cut hcut]
    have hclean := cleanRun_of_noCIRule (blockCore b) (rulesText bs) (some 'r') hnc
    rw [splitAux_append hclean]
    have hlast : lastPC (some 'r') (blockCore b ++ ('n' :: 'd' :: '\n' :: []))
        = some '\n' := by
      rw [lastPC_append]
      rfl
    rw [hlast, ih (fun x hx => hwf x (by simp [hx])) _ _ (by decide)]
    have hrev : (blockCore b ++ ('n' :: 'd' :: '\n' :: [])).reverse ++ ['r']
        = (renderBlock b).reverse := by
      rw [renderBlock_core]
      simp
    rw [hrev]
    simp

theorem splitNl_ne_nil (l : PyStr) : splitNl l ≠ [] := by
  cases l with
  | nil => simp [splitNl]
  | cons c cs =>
    by_cases h : c = '\n'
    · simp [splitNl, h]
    · simp only [splitNl, h, if_false]
      cases hs : splitNl cs <;> simp

theorem joinNl_splitNl (l : PyStr) : joinNl (splitNl l) = l := by
  induction l with
  | nil => rfl
  | cons c cs ih =>
    by_cases h : c = '\n'
    · subst h
      simp only [splitNl, if_true]
      cases hs : splitNl cs with
      | nil => exact absurd hs (splitNl_ne_nil cs)
      | cons line rest =>
        show ([] : PyStr) ++ '\n' :: joinNl (line :: rest) = '\n' :: cs
        rw [← hs, ih]
        rfl
    · simp only [splitNl, h, if_false]
      cases hs : splitNl cs with
      | nil => exact absurd hs (splitNl_ne_nil cs)
      | cons line rest =>
        cases rest with
        | nil =>
          show c :: line = c :: cs
          have : joinNl (splitNl cs) = cs := ih
          rw [hs] at this
          simpa [joinNl] using this
        | cons l2 rest2 =>
          show (c :: line) ++ '\n' :: joinNl (l2 :: rest2) = c :: cs
          have : joinNl (splitNl cs) = cs := ih
          rw [hs] at this
          simp only [joinNl] at this
          simp [this]

theorem mem_of_mem_splitNl {c : Char} :
    ∀ {l line : PyStr}, line ∈ splitNl l → c ∈ line → c ∈ l := by
  intro l
  induction l with
  | nil =>
    intro line hl hc
    simp [splitNl] at hl
    subst hl
    simp at hc
  | cons x xs ih =>
    intro line hl hc
    by_cases h : x = '\n'
    · subst h
      simp only [splitNl, if_true, List.mem_cons] at hl
      rcases hl with rfl | hl
      · simp at hc
      · exact List.mem_cons_of_mem _ (ih hl hc)
    · simp only [splitNl, h, if_false] at hl
      cases hs : splitNl xs with
      | nil => exact absurd hs (splitNl_ne_nil xs)
      | cons ln rest =>
        rw [hs] at hl
        rcases List.mem_cons.1 hl with rfl | hl2
        · rcases List.mem_cons.1 hc with rfl | hc2
          · exact List.mem_cons_self _ _
          · exact List.mem_cons_of_mem _ (ih (hs ▸ List.mem_cons_self ln rest) hc2)
        · exact List.mem_cons_of_mem _ (ih (hs ▸ List.mem_cons_of_mem ln hl2) hc)

theorem stripFences_id {l : PyStr} (h : l.all (fun c => c != backtick) = true) :
    stripFences l = l := by
  unfold stripFences
  have hlines : ∀ line ∈ splitNl l,
      (if (backtick :: backtick :: backtick :: []).isPrefixOf line then ([] : PyStr)
       else line) = line := by
    intro line hline
    rw [if_neg]
    intro hpre
    have hmem : backtick ∈ line := by
      cases line with
      | nil => simp [List.isPrefixOf] at hpre
      | cons a as =>
        simp only [List.isPrefixOf, Bool.and_eq_true, beq_iff_eq] at hpre
        rw [← hpre.1]
        exact List.mem_cons_self _ _
    have := List.all_eq_true.1 h _ (mem_of_mem_splitNl hline hmem)
    simp at this
  have hmap : ∀ (ls : List PyStr) (f : PyStr → PyStr), (∀ x ∈ ls, f x = x) →
      ls.map f = ls := by
    intro ls
    induction ls with
    | nil => intro _ _; rfl
    | cons a as ih =>
      intro f hf
      simp only [List.map_cons, hf a (by simp), List.cons.injEq, true_and]
      exact ih f (fun x hx => hf x (by simp [hx]))
  rw [hmap _ _ hlines]
  exact joinNl_splitNl l

theorem takeWhile_append_cons {p : Char → Bool} {xs : PyStr} {c : Char} (r : PyStr)
    (hx : ∀ a ∈ xs, p a = true) (hc : p c = false) :
    (xs ++ c :: r).takeWhile p = xs ∧ (xs ++ c :: r).dropWhile p = c :: r := by
  induction xs with
  | nil => simp [List.takeWhile, List.dropWhile, hc]
  | cons x xs ih =>
    have hx1 : p x = true := hx x (by simp)
    have hrec := ih (fun a ha => hx a (by simp [ha]))
    simp [List.takeWhile, List.dropWhile, hx1, hrec.1, hrec.2]

theorem tryRuleAt_render {name : PyStr} (inner : PyStr) (hne : name ≠ [])
    (hq : ∀ a ∈ name, a ≠ '"') :
    tryRuleAt ('r' :: 'u' :: 'l' :: 'e' :: ' ' :: '"' :: (name ++ '"' :: inner))
      = some name := by
  have h1 : ciLit ('r' :: 'u' :: 'l' :: 'e' :: [])
      ('r' :: 'u' :: 'l' :: 'e' :: ' ' :: '"' :: (name ++ '"' :: inner))
      = some (' ' :: '"' :: (name ++ '"' :: inner)) := by
    simp [ciLit, ciPrefixB_rule_self]
  have h2 : dropSpaces1 (' ' :: '"' :: (name ++ '"' :: inner))
      = some ('"' :: (name ++ '"' :: inner)) := by
    simp [dropSpaces1, List.dropWhile, show isSpace ' ' = true from by decide,
      show isSpace '"' = false from by decide]
  have h3 := @takeWhile_append_cons (fun x => decide (x ≠ '"')) name '"' inner
    (fun a ha => by simpa using hq a ha) (by decide)
  have hne2 : name.isEmpty = false := by
    cases name with
    | nil => exact absurd rfl hne
    | cons a as => rfl
  unfold tryRuleAt
  rw [h1]
  simp only [Option.bind_eq_bind, Option.some_bind]
  rw [h2]
  simp only [Option.some_bind]
  simp only [h3.1, h3.2, hne2, Bool.false_eq_true, if_false]

theorem ruleSearch_cons_some {c : Char} {cs nm : PyStr}
    (h : tryRuleAt (c :: cs) = some nm) :
    ruleSearch (c :: cs) = some nm := by
  simp [ruleSearch, h]

theorem containsSub_rule_of_head (x : PyStr) :
    containsSub ('r' :: 'u' :: 'l' :: 'e' :: [])
      (lowerL ('r' :: 'u' :: 'l' :: 'e' :: x)) = true := by
  simp [lowerL, containsSub, List.isPrefixOf,
    show asciiLower 'r' = 'r' from by decide,
    show asciiLower 'u' = 'u' from by decide,
    show asciiLower 'l' = 'l' from by decide,
    show asciiLower 'e' = 'e' from by decide]

theorem pyStrip_shape (core : PyStr) :
    pyStrip ('r' :: (core ++ ('n' :: 'd' :: '\n' :: [])))
      = 'r' :: (core ++ ('n' :: 'd' :: [])) := by
  have h1 : (('r' : Char) :: (core ++ ('n' :: 'd' :: '\n' :: []))).dropWhile isSpace
      = 'r' :: (core ++ ('n' :: 'd' :: '\n' :: [])) := by
    simp [List.dropWhile, show isSpace 'r' = false from by decide]
  rw [pyStrip, h1]
  have h2 : (('r' : Char) :: (core ++ ('n' :: 'd' :: '\n' :: []))).reverse
      = '\n' :: 'd' :: 'n' :: (core.reverse ++ ['r']) := by
    simp
  rw [h2]
  have h3 : List.dropWhile isSpace ('\n' :: 'd' :: 'n' :: (core.reverse ++ ['r']))
      = 'd' :: 'n' :: (core.reverse ++ ['r']) := by
    simp [List.dropWhile, show isSpace '\n' = true from by decide,
      show isSpace 'd' = false from by decide]
  rw [h3]
  simp

theorem pyStrip_shape2 (core : PyStr) :
    pyStrip ('r' :: (core ++ ('n' :: 'd' :: [])))
      = 'r' :: (core ++ ('n' :: 'd' :: [])) := by
  have h1 : (('r' : Char) :: (core ++ ('n' :: 'd' :: []))).dropWhile isSpace
      = 'r' :: (core ++ ('n' :: 'd' :: [])) := by
    simp [List.dropWhile, show isSpace 'r' = false from by decide]
  rw [pyStrip, h1]
  have h2 : (('r' : Char) :: (core ++ ('n' :: 'd' :: []))).reverse
      = 'd' :: 'n' :: (core.reverse ++ ['r']) := by
    simp
  rw [h2]
  have h3 : List.dropWhile isSpace ('d' :: 'n' :: (core.reverse ++ ['r']))
      = 'd' :: 'n' :: (core.reverse ++ ['r']) := by
    simp [List.dropWhile, show isSpace 'd' = false from by decide]
  rw [h3]
  simp

theorem blockCore_nd (b : RuleBlock) :
    blockCore b ++ ('n' :: 'd' :: [])
      = 'u' :: 'l' :: 'e' :: ' ' :: '"' ::
          (b.name ++ '"' ::
            ('\n' :: 'w' :: 'h' :: 'e' :: 'n' ::
              (b.whenPart ++ 't' :: 'h' :: 'e' :: 'n' ::
                (b.thenPart ++ 'e' :: 'n' :: 'd' :: [])))) := by
  simp [blockCore]

theorem parse_rule_render_name (b : RuleBlock) (hwfb : wfBlock b = true)
    (sf : Option PyStr) :
    (parse_rule (pyStrip (renderBlock b)) sf).map ParsedRule.name = some b.name := by
  have hne : b.name ≠ [] := by
    have : (!b.name.isEmpty) = true := by
      simp only [wfBlock, Bool.and_eq_true] at hwfb
      tauto
    cases hn : b.name with
    | nil => rw [hn] at this; simp at this
    | cons a as => simp
  have hq : ∀ a ∈ b.name, a ≠ '"' := by
    have : b.name.all (fun c => c != '"') = true := by
      simp only [wfBlock, Bool.and_eq_true] at hwfb
      tauto
    intro a ha
    have := List.all_eq_true.1 this a ha
    simpa using this
  rw [renderBlock_core, pyStrip_shape]
  have hshape : ('r' : Char) :: (blockCore b ++ ('n' :: 'd' :: []))
      = 'r' :: 'u' :: 'l' :: 'e' :: ' ' :: '"' ::
          (b.name ++ '"' ::
            ('\n' :: 'w' :: 'h' :: 'e' :: 'n' ::
              (b.whenPart ++ 't' :: 'h' :: 'e' :: 'n' ::
                (b.thenPart ++ 'e' :: 'n' :: 'd' :: [])))) := by
    rw [blockCore_nd]
  have hg2 : containsSub ('r' :: 'u' :: 'l' :: 'e' :: [])
      (lowerL ('r' :: (blockCore b ++ ('n' :: 'd' :: [])))) = true := by
    rw [hshape]
    exact containsSub_rule_of_head _
  have hrs : ruleSearch ('r' :: (blockCore b ++ ('n' :: 'd' :: []))) = some b.name := by
    rw [hshape]
    exact ruleSearch_cons_some (tryRuleAt_render _ hne hq)
  simp only [parse_rule, pyStrip_shape2, hg2, hrs, List.isEmpty_cons,
    Bool.not_true, Bool.or_false, Bool.false_eq_true, if_false]
  rfl

theorem parse_rules_block (b : RuleBlock) (hwfb : wfBlock b = true)
    (sf : Option PyStr) :
    ((if (pyStrip (renderBlock b)).isEmpty then none
      else parse_rule (pyStrip (stripFences (renderBlock b))) sf).map
        ParsedRule.name) = some b.name := by
  have hbt : (renderBlock b).all (fun c => c != backtick) = true := by
    simp only [wfBlock, Bool.and_eq_true] at hwfb
    tauto
  rw [stripFences_id hbt]
  have hne : (pyStrip (renderBlock b)).isEmpty = false := by
    rw [renderBlock_core, pyStrip_shape]
    rfl
  rw [hne]
  simp only [Bool.false_eq_true, if_false]
  exact parse_rule_render_name b hwfb sf

theorem filterMap_blocks (sf : Option PyStr) :
    ∀ (bs : List RuleBlock), (∀ b ∈ bs, wfBlock b = true) →
      ((bs.map renderBlock).filterMap (fun block =>
          if (pyStrip block).isEmpty then none
          else parse_rule (pyStrip (stripFences block)) sf)).map ParsedRule.name
        = bs.map RuleBlock.name := by
  intro bs
  induction bs with
  | nil => intro _; simp
  | cons b bs ih =>
    intro hwf
    simp only [List.map_cons, List.filterMap_cons]
    have hb := parse_rules_block b (hwf b (by simp)) sf
    cases hg : (if (pyStrip (renderBlock b)).isEmpty then none
                else parse_rule (pyStrip (stripFences (renderBlock b))) sf) with
    | none =>
      rw [hg] at hb
      simp at hb
    | some r =>
      rw [hg] at hb
      simp only [Option.map_some'] at hb
      injection hb with hb
      simp only [hg, List.map_cons, hb]
      rw [ih (fun x hx => hwf x (by simp [hx]))]

/-- C6: for any list of well-formed rule blocks, `parse_rules_text`
applied to their concatenated source returns exactly one `ParsedRule` per
block, in source order, whose names are the quoted header names. -/
theorem parse_rules_text_roundtrip (bs : List RuleBlock)
    (hwf : ∀ b ∈ bs, wfBlock b = true) (sf : Option PyStr) :
    (parse_rules_text (rulesText bs) sf).map ParsedRule.name
      = bs.map RuleBlock.name := by
  unfold parse_rules_text splitRuleBlocks
  rw [splitAux_rulesText bs hwf [] none (by rfl)]
  rw [List.reverse_nil, List.filterMap_cons]
  have hnil : (if (pyStrip ([] : PyStr)).isEmpty then none
               else parse_rule (pyStrip (stripFences ([] : PyStr))) sf) = none := rfl
  rw [hnil]
  exact filterMap_blocks sf bs hwf

/-- Witness for C6 at two concrete rule blocks. -/
theorem parse_rules_text_roundtrip_witness :
    (∀ b ∈ ([{ name := ('A' :: [])
               whenPart := ("\n  Item X_1 changed\n").data
               thenPart := ("\n  sendCommand(Y_1, ON)\n").data },
             { name := ("Light_On").data
               whenPart := (' ' :: [])
               thenPart := (' ' :: []) }] : List RuleBlock),
        wfBlock b = true) ∧
    (parse_rules_text
        (rulesText [{ name := ('A' :: [])
                      whenPart := ("\n  Item X_1 changed\n").data
                      thenPart := ("\n  sendCommand(Y_1, ON)\n").data },
                    { name := ("Light_On").data
                      whenPart := (' ' :: [])
                      thenPart := (' ' :: []) }]) none).map ParsedRule.name
      = [('A' :: []), ("Light_On").data] := by
  constructor
  · decide
  · exact parse_rules_text_roundtrip _ (by decide) none

/-- Witness for C10 at a header-only text. -/
theorem parse_rule_header_no_sections_witness :
    ruleSearch (pyStrip ("rule \"Night Light\"").data) =
      some ("Night Light").data ∧
    parse_rule ("rule \"Night Light\"").data none =
      some { name := ("Night Light").data
             raw_text := pyStrip ("rule \"Night Light\"").data
             trigger_items := []
             action_items := []
             all_items := []
             source_file := none } := by
  refine ⟨by rfl, ?_⟩
  exact parse_rule_header_no_sections ("rule \"Night Light\"").data none
    ("Night Light").data (by rfl) (by rfl) (by rfl)

end AgentHAB
